import Mathlib

/-!
# Verification of the redimo stream engine (`streams.go`)

This file shallowly embeds the stream subsystem of the redimo repository:
the XID codec (`NewXID`, `Time`, `Seq`, `Next`, `First`, `Last`, the
`XStart`/`XEnd` sentinels), the single-stream state held in the DynamoDB
table (stream items, the watermark record, the consumer-group cursor and
pending-entry ledger), and the operations `XADD`, `XRANGE`, `XREAD`,
`XREADGROUP`, `XACK`, `XCLAIM`, `XDEL`, `XTRIM`, `XGROUP`.

Modelling conventions:
* A Go string is a byte sequence; we model XID strings as `List Nat` of
  byte values.  `fmt.Sprintf("%020d", n)` becomes `padBytes 20 n`
  (20 zero-padded decimal digits, bytes `48+d`), and the `"-"` separator
  is byte 45.  Go's `<` on strings and DynamoDB's comparison on `S`
  attributes are byte-wise lexicographic, modelled by `bytesLt`.
* All state for one stream key and one consumer group is collected in
  `StreamDB`: the stream items live under partition key `key`, the
  watermark under `_redimo/seq/key`, the group cursor and pending
  entries under `_redimo/key/group`; the key spaces are disjoint, so the
  record is split into four fields.
* Machine integers: timestamps are `time.Time` values used only through
  `Unix()` (int64 seconds) and sequence numbers are `uint64`; both are
  modelled as `Nat` with explicit bounds (`2^63`, `2^64`) where the
  Go parsing functions clamp.  `strconv.ParseInt/ParseUint` return the
  maximal representable value on range overflow, modelled by `min`.
* DynamoDB conditional writes: a condition `#v < :v` fails when the
  attribute is absent or not less than the new value; a failed condition
  aborts the whole `TransactWriteItems` call.  The expression-builder
  helpers (`newExpresionBuilder`, `addConditionLessThan`, ...) are not
  part of the sources; their meaning is modelled from the spec's
  description of per-key conditional writes (spec section 4.3 / 7).
* Transport (network) errors and concurrency are modelled only where a
  claim needs them: `XACK` takes an explicit fault schedule, and
  `XREADGROUP` takes, per attempt, the pair of states observed at read
  time and at transaction-submit time, so a lost race appears as a
  condition failure of the cursor compare-and-swap.
-/

/-- Byte strings: a Go string as its list of byte values. -/
abbrev XID := List Nat

/-- Byte-wise lexicographic strict comparison, as Go's `<` on `string`
and DynamoDB's ordering on `S` attributes. -/
def bytesLt : XID → XID → Bool
  | _, [] => false
  | [], _ :: _ => true
  | a :: as, b :: bs => decide (a < b) || (a == b && bytesLt as bs)

/-- Non-strict byte comparison (`a <= b` iff `not (b < a)`), as used by
DynamoDB's `BETWEEN :start AND :stop` key condition. -/
def bytesLe (a b : XID) : Bool := !(bytesLt b a)

/-- Big-endian zero-padded decimal digit expansion of `n` to `k` digits
(the digit values, not yet bytes). -/
def padDec : Nat → Nat → List Nat
  | 0, _ => []
  | k + 1, n => n / 10 ^ k :: padDec k (n % 10 ^ k)

/-- `fmt.Sprintf("%020d", n)` generalised to width `k`: the bytes of
the zero-padded decimal rendering of `n` (digit `d` is byte `48 + d`). -/
def padBytes (k n : Nat) : List Nat := (padDec k n).map (fun d => 48 + d)

/-- `NewXID` (streams.go): `%020d` of the timestamp's Unix seconds and
`%020d` of the sequence number joined by `"-"` (byte 45). -/
def NewXID (t s : Nat) : XID := padBytes 20 t ++ 45 :: padBytes 20 s

/-- The `XStart` sentinel: twenty `'0'` bytes, `'-'`, twenty `'0'` bytes. -/
def XStart : XID := List.replicate 20 48 ++ 45 :: List.replicate 20 48

/-- The `XEnd` sentinel: twenty `'9'` bytes, `'-'`, twenty `'9'` bytes. -/
def XEnd : XID := List.replicate 20 57 ++ 45 :: List.replicate 20 57

/-- Decimal digit-byte accumulator, the core of `strconv.ParseInt` /
`ParseUint` on an all-digit string. -/
def decodeDigits : Nat → List Nat → Nat
  | acc, [] => acc
  | acc, b :: bs => decodeDigits (acc * 10 + (b - 48)) bs

/-- `strings.Split(s, "-")[0]`: the bytes before the first `'-'`. -/
def sepPart0 (x : XID) : List Nat := x.takeWhile (fun b => b != 45)

/-- `strings.Split(s, "-")[1]`: the bytes after the first `'-'` up to
the next `'-'`. -/
def sepPart1 (x : XID) : List Nat :=
  ((x.dropWhile (fun b => b != 45)).drop 1).takeWhile (fun b => b != 45)

/-- `XID.Time` (streams.go): `ParseInt(parts[0], 10, 64)`, the error
ignored; on range overflow `ParseInt` returns the maximal int64. -/
def XID.Time (x : XID) : Nat := min (decodeDigits 0 (sepPart0 x)) (2 ^ 63 - 1)

/-- `XID.Seq` (streams.go): `ParseUint(parts[1], 10, 64)`, the error
ignored; on range overflow `ParseUint` returns the maximal uint64. -/
def XID.Seq (x : XID) : Nat := min (decodeDigits 0 (sepPart1 x)) (2 ^ 64 - 1)

/-- `XID.Next` (streams.go): re-encode with the sequence number bumped.
The increment `xid.Seq() + 1` is Go uint64 arithmetic, so the maximal
sequence `2^64 - 1` wraps around to 0. -/
def XID.Next (x : XID) : XID :=
  NewXID (XID.Time x) ((XID.Seq x + 1) % 2 ^ 64)

/-- A canonical XID: the encoding of a representable
(int64 timestamp, uint64 sequence) pair. -/
def Canonical (x : XID) : Prop :=
  ∃ t s, t < 2 ^ 63 ∧ s < 2 ^ 64 ∧ x = NewXID t s

/-- A canonical XID whose sequence number is below the uint64 maximum,
so that `Next`'s uint64 increment does not wrap around. -/
def NextSafe (x : XID) : Prop :=
  ∃ t s, t < 2 ^ 63 ∧ s < 2 ^ 64 - 1 ∧ x = NewXID t s

/- ### The store state for one stream key and one consumer group -/
/-- A stream item's caller-visible field map (`map[string]Value`,
values abstracted to strings; the claims never inspect values). -/
abbrev FieldMap := List (String × String)

/-- `StreamItem` (streams.go): an XID plus a field map. -/
structure StreamItem where
  ID : XID
  Fields : FieldMap
  deriving Repr, DecidableEq

/-- A pending-ledger record: attributes `cnk` (consumer), `ldk`
(last-delivered unix seconds) and `dck` (delivery count). -/
structure PendingEntry where
  consumer : String
  lastDelivered : Nat
  deliveryCount : Nat
  deriving Repr, DecidableEq

/-- The slice of the DynamoDB table relevant to one stream key and one
consumer group.  `items` is the stream keyspace (partition key = stream
key, sort key = XID string, kept in ascending sort-key order as DynamoDB
stores it); `watermark` is the `v` attribute of the `_redimo/seq/key`
record (`none` when the record is absent); `cursor` is the group cursor
record under `_redimo/key/group` / `_redimo/cursor`; `pending` is the
group's pending ledger under `_redimo/key/group`, keyed by XID string. -/
structure StreamDB where
  items : List StreamItem
  watermark : Option XID
  cursor : Option XID
  pending : List (XID × PendingEntry)
  deriving Repr, DecidableEq

/-- Errors surfaced by the operations. -/
inductive RErr where
  /-- a DynamoDB conditional-write failure surfaced to the caller -/
  | conditionFailed
  /-- `ErrXGroupNotInitialized` -/
  | groupNotInitialized
  /-- `errors.New("too much contention")` after 5 failed attempts -/
  | contention
  /-- `fmt.Errorf("could not loat stream item: %w", err)` in XCLAIM -/
  | itemLoadFailed
  /-- any transport/store error, propagated unchanged -/
  | transport
  deriving Repr, DecidableEq

deriving instance DecidableEq for Except

/-- DynamoDB `Put` on the stream keyspace: inserts at the sort-key
position, replacing an item with the same key. -/
def insertItem : List StreamItem → StreamItem → List StreamItem
  | [], it => [it]
  | x :: xs, it =>
    if bytesLt it.ID x.ID then it :: x :: xs
    else if it.ID == x.ID then it :: xs
    else x :: insertItem xs it

/-- The range engine's scan (`xRange`, streams.go): a paginated Query
with `#sk BETWEEN :start AND :stop` over the ascending keyspace; the
pagination cursor makes the result the full in-range sublist, to which
the caller-side `count` limit is applied. -/
def rangeItems (items : List StreamItem) (start stop : XID) : List StreamItem :=
  items.filter (fun it => bytesLe start it.ID && bytesLe it.ID stop)

/-- `XRANGE` (streams.go): forward scan, limited to `count` results. -/
def XRANGE (db : StreamDB) (start stop : XID) (count : Nat) : List StreamItem :=
  (rangeItems db.items start stop).take count

/-- `XREVRANGE` (streams.go): the same scan in reverse order. -/
def XREVRANGE (db : StreamDB) (stop start : XID) (count : Nat) : List StreamItem :=
  ((rangeItems db.items start stop).reverse).take count

/-- `XREAD` (streams.go): `XRANGE(key, from.Next(), XEnd, count)`. -/
def XREAD (db : StreamDB) (from_ : XID) (count : Nat) : List StreamItem :=
  XRANGE db (XID.Next from_) XEnd count

/- ### XADD -/
/-- The `XADD` transaction (streams.go): an unconditional `Put` of the
item plus `sequenceUpdateAction`, the watermark update conditioned on
`#v < :v` (the stored watermark exists and is byte-wise less than the
new ID).  `none` models the transaction cancelled by condition failure. -/
def xaddTransact (db : StreamDB) (id : XID) (fields : FieldMap) :
    Option StreamDB :=
  match db.watermark with
  | some w =>
    if bytesLt w id then
      some { db with items := insertItem db.items ⟨id, fields⟩,
                     watermark := some id }
    else none
  | none => none

/-- `xInit` (streams.go): write `XStart` to the watermark record,
conditioned on the attribute being absent; a condition failure (the
record already exists) is swallowed. -/
def xInit (db : StreamDB) : StreamDB :=
  match db.watermark with
  | none => { db with watermark := some XStart }
  | some _ => db

/-- `XADD` (streams.go) for an explicit (non-`XAutoID`) ID: attempt the
transaction; on the first condition failure run `xInit` and retry
exactly once; a second failure is returned as an error.  (The `XAutoID`
branch, which mints an ID from the clock and the `INCR` counter, is not
involved in the claims and is not modelled.) -/
def XADD (db : StreamDB) (id : XID) (fields : FieldMap) :
    StreamDB × Except RErr XID :=
  match xaddTransact db id fields with
  | some db1 => (db1, Except.ok id)
  | none =>
    let db1 := xInit db
    match xaddTransact db1 id fields with
    | some db2 => (db2, Except.ok id)
    | none => (db1, Except.error RErr.conditionFailed)

/- ### Consumer-group primitives -/
/-- `xGroupCursorSet` (streams.go): an `HSET` of the cursor record.
`HSET` (hashes.go) is an unconditional `UpdateItem` with a plain `SET`,
so the cursor is overwritten regardless of its current value. -/
def xGroupCursorSet (db : StreamDB) (start : XID) : StreamDB :=
  { db with cursor := some start }

/-- `XGROUP` (streams.go): `xGroupCursorSet`. -/
def XGROUP (db : StreamDB) (start : XID) : StreamDB :=
  xGroupCursorSet db start

/-- `xGroupCursorPushAction` (streams.go): `SET v = id` conditioned on
`v < id` (the stored cursor attribute exists and is byte-wise less than
the new value).  `none` models the condition failing. -/
def xGroupCursorPush (db : StreamDB) (id : XID) : Option StreamDB :=
  match db.cursor with
  | some cur =>
    if bytesLt cur id then some { db with cursor := some id } else none
  | none => none

/-- Assoc-list lookup in the pending ledger (a `GetItem`/condition on
the record keyed by the XID string). -/
def pendingLookup : List (XID × PendingEntry) → XID → Option PendingEntry
  | [], _ => none
  | (k, e) :: rest, id => if k == id then some e else pendingLookup rest id

/-- Store a pending record under `id`, replacing any existing record. -/
def pendingPut : List (XID × PendingEntry) → XID → PendingEntry →
    List (XID × PendingEntry)
  | [], id, e => [(id, e)]
  | (k, e0) :: rest, id, e =>
    if k == id then (id, e) :: rest else (k, e0) :: pendingPut rest id e

/-- DynamoDB `DeleteItem` on the pending ledger. -/
def pendingDelete (l : List (XID × PendingEntry)) (id : XID) :
    List (XID × PendingEntry) :=
  l.filter (fun kv => kv.1 != id)

/-- `PendingItem.toPutAction` (streams.go): `SET cnk = consumer`,
`SET ldk = now`, `ADD dck 1` — an upsert that increments the delivery
count (DynamoDB `ADD` starts from 0 on an absent attribute). -/
def upsertPending (l : List (XID × PendingEntry)) (id : XID)
    (consumer : String) (now : Nat) : List (XID × PendingEntry) :=
  match pendingLookup l id with
  | some e => pendingPut l id ⟨consumer, now, e.deliveryCount + 1⟩
  | none => pendingPut l id ⟨consumer, now, 1⟩

/- ### XACK, XCLAIM, XDEL, XTRIM -/
/-- `XACK` (streams.go), with an explicit fault schedule for the store:
per ID, an unconditional `DeleteItem` with `ReturnValues: ALL_OLD` on
the pending ledger; the ID is appended to the acknowledged list iff the
delete returned old attributes (the entry existed).  `faults.headD
false = true` models the store call for the current ID failing, upon
which the loop returns the partial result and the error. -/
def xackLoop : StreamDB → List XID → List Bool →
    StreamDB × List XID × Option RErr
  | db, [], _ => (db, [], none)
  | db, id :: rest, faults =>
    if faults.headD false then (db, [], some RErr.transport)
    else
      let existed := pendingLookup db.pending id
      let db1 := { db with pending := pendingDelete db.pending id }
      let r := xackLoop db1 rest faults.tail
      match existed with
      | some _ => (r.1, id :: r.2.1, r.2.2)
      | none => (r.1, r.2.1, r.2.2)

/-- `XACK` entry point. -/
def XACK (db : StreamDB) (ids : List XID) (faults : List Bool) :
    StreamDB × List XID × Option RErr :=
  xackLoop db ids faults

/-- `XCLAIM` (streams.go): per ID, a conditioned `UpdateItem` on the
pending entry requiring the record to exist and `ldk <= before`; on
success set `cnk = consumer`, `ldk = now`, `dck = 0`, then fetch the
stream item with `XRANGE(key, id, id, 1)`.  A condition failure skips
the ID silently; an empty fetch aborts with an error, returning the
items accumulated so far. -/
def xclaimLoop (consumer : String) (before now : Nat) :
    StreamDB → List XID → StreamDB × List StreamItem × Option RErr
  | db, [] => (db, [], none)
  | db, id :: rest =>
    match pendingLookup db.pending id with
    | some e =>
      if e.lastDelivered ≤ before then
        let db1 := { db with
          pending := pendingPut db.pending id ⟨consumer, now, 0⟩ }
        match XRANGE db1 id id 1 with
        | [] => (db1, [], some RErr.itemLoadFailed)
        | item :: _ =>
          let r := xclaimLoop consumer before now db1 rest
          (r.1, item :: r.2.1, r.2.2)
      else xclaimLoop consumer before now db rest
    | none => xclaimLoop consumer before now db rest

/-- `XCLAIM` entry point. -/
def XCLAIM (db : StreamDB) (consumer : String) (before now : Nat)
    (ids : List XID) : StreamDB × List StreamItem × Option RErr :=
  xclaimLoop consumer before now db ids

/-- `XDEL` (streams.go): per ID, an unconditional `DeleteItem` with
`ReturnValues: ALL_OLD` on the stream keyspace; the ID is reported
deleted iff old attributes came back. -/
def xdelLoop : StreamDB → List XID → StreamDB × List XID
  | db, [] => (db, [])
  | db, id :: rest =>
    let existed := (db.items.find? (fun it => it.ID == id)).isSome
    let db1 := { db with items := db.items.filter (fun it => it.ID != id) }
    let r := xdelLoop db1 rest
    if existed then (r.1, id :: r.2) else (r.1, r.2)

/-- `XDEL` entry point. -/
def XDEL (db : StreamDB) (ids : List XID) : StreamDB × List XID :=
  xdelLoop db ids

/-- `XTRIM` (streams.go): scan the whole stream newest-first (a reverse
Query `BETWEEN XStart AND XEnd` with no limit, following the pagination
cursor), skip the first `newCount` items seen and collect every further
ID as delete-eligible; delete those via `XDEL` and report their count. -/
def XTRIM (db : StreamDB) (newCount : Nat) : StreamDB × Nat :=
  let scan := (rangeItems db.items XStart XEnd).reverse
  let idsToDelete := (scan.drop newCount).map (fun it => it.ID)
  ((XDEL db idsToDelete).1, idsToDelete.length)

/- ### XREADGROUP -/
/-- `XReadOption` (streams.go). -/
inductive XReadOption where
  | readPending
  | readNew
  | readNewNoAck
  deriving Repr, DecidableEq

/-- Outcome of one attempt of the `XREADGROUP` retry loop. -/
inductive XrgStep where
  /-- cursor read failed (`GroupNotInitialized`) -/
  | fatal (e : RErr)
  /-- no stream item past the cursor: return empty, no error -/
  | empty
  /-- the transaction committed against the submit-time state -/
  | stepped (db' : StreamDB) (item : StreamItem)
  /-- the cursor compare-and-swap condition failed (lost race) -/
  | condFail
  deriving Repr, DecidableEq

/-- One attempt of `XREADGROUP` in mode `READ_NEW`/`READ_NEW_NO_ACK`
(streams.go): read the cursor (`xGroupCursorGet`, failing with
`GroupNotInitialized` when absent) and the next item past it from the
state `readDb` observed at read time; then submit one transaction
against the state `subDb` current at submit time, containing
`xGroupCursorPushAction` (cursor `SET` conditioned on `stored < new`)
and, only for `READ_NEW`, the unconditional pending upsert. -/
def xrgAttempt (readDb subDb : StreamDB) (consumer : String)
    (opt : XReadOption) (now : Nat) : XrgStep :=
  match readDb.cursor with
  | none => XrgStep.fatal RErr.groupNotInitialized
  | some cur =>
    match XRANGE readDb (XID.Next cur) XEnd 1 with
    | [] => XrgStep.empty
    | item :: _ =>
      match xGroupCursorPush subDb item.ID with
      | some db1 =>
        XrgStep.stepped
          { db1 with
            pending :=
              if opt = XReadOption.readNew then
                upsertPending db1.pending item.ID consumer now
              else db1.pending }
          item
      | none => XrgStep.condFail

/-- The `retryCount < 5` loop of `XREADGROUP`: each list element is the
pair (state at cursor read, state at transaction submit) seen by one
attempt; a condition failure retries, exhausting the list yields the
contention error. -/
def xrgLoop (consumer : String) (opt : XReadOption) (now : Nat) :
    List (StreamDB × StreamDB) → Except RErr (Option (StreamDB × StreamItem))
  | [] => Except.error RErr.contention
  | (readDb, subDb) :: rest =>
    match xrgAttempt readDb subDb consumer opt now with
    | XrgStep.fatal e => Except.error e
    | XrgStep.empty => Except.ok none
    | XrgStep.stepped db' item => Except.ok (some (db', item))
    | XrgStep.condFail => xrgLoop consumer opt now rest

/-- `XREADGROUP` (streams.go) in modes `READ_NEW` / `READ_NEW_NO_ACK`:
at most 5 attempts.  (`PENDING` mode dispatches to `xGroupReadPending`
and is outside the claims; `maxCount` is unused by the new-read path,
which always fetches a single item.) -/
def XREADGROUP (views : List (StreamDB × StreamDB)) (consumer : String)
    (opt : XReadOption) (now : Nat) :
    Except RErr (Option (StreamDB × StreamItem)) :=
  xrgLoop consumer opt now (views.take 5)

/-- A concrete ledger for the C8 witness: one entry, for `NewXID 2 2`. -/
def ackWitnessDB : StreamDB :=
  { items := [], watermark := none, cursor := none,
    pending := [(NewXID 2 2, ⟨"c1", 7, 1⟩)] }

/-- The concrete ID list for the C8 witness. -/
def ackWitnessIds : List XID := [NewXID 1 1, NewXID 2 2]

/-- C6 witness state: one pending entry for `NewXID 1 1` delivered at
time 10, and the matching stream item. -/
def claimWitnessDB : StreamDB :=
  { items := [⟨NewXID 1 1, [("a", "1")]⟩], watermark := some (NewXID 1 1),
    cursor := none, pending := [(NewXID 1 1, ⟨"c0", 10, 3⟩)] }

/-- C10 witness state: a pending entry for `NewXID 3 3` whose stream
item is gone. -/
def fetchMissDB : StreamDB :=
  { items := [], watermark := some (NewXID 3 3), cursor := none,
    pending := [(NewXID 3 3, ⟨"c0", 5, 2⟩)] }

/-- C9 witness state: three canonical items in ascending order. -/
def trimWitnessDB : StreamDB :=
  { items := [⟨NewXID 1 1, []⟩, ⟨NewXID 1 2, []⟩, ⟨NewXID 2 1, []⟩],
    watermark := some (NewXID 2 1), cursor := none, pending := [] }

/-- The state committed by a successful `XREADGROUP` attempt: cursor
advanced to the delivered item's ID, and (only in `READ_NEW` mode) the
pending entry upserted for it. -/
def xrgNewState (db : StreamDB) (itemID : XID) (c : String)
    (o : XReadOption) (now : Nat) : StreamDB :=
  { db with cursor := some itemID,
            pending := if o = XReadOption.readNew then
              upsertPending db.pending itemID c now else db.pending }

/-- C3 witness state: one item past the cursor. -/
def rgWitnessDB : StreamDB :=
  { items := [⟨NewXID 1 1, []⟩], watermark := some (NewXID 1 1),
    cursor := some (NewXID 0 0), pending := [] }

/-- C3 witness state: the group cursor record is absent (also used as
the submit-time state of a lost race). -/
def rgRaceDB : StreamDB :=
  { items := [⟨NewXID 1 1, []⟩], watermark := some (NewXID 1 1),
    cursor := none, pending := [] }

/-- C3 witness state: the cursor already stands at the last item. -/
def rgDrainedDB : StreamDB :=
  { items := [⟨NewXID 1 1, []⟩], watermark := some (NewXID 1 1),
    cursor := some (NewXID 1 1), pending := [] }

/-- C3 counterexample state: the cursor sequence is the uint64 maximum,
and the only stream item lies at or below the cursor. -/
def rgWrapDB : StreamDB :=
  { items := [⟨NewXID 1 5, []⟩], watermark := some (NewXID 1 5),
    cursor := some (NewXID 1 (2 ^ 64 - 1)), pending := [] }

/-- C3 counterexample state: the cursor sequence is the uint64 maximum,
and an item strictly greater than the cursor exists. -/
def rgWrapDB2 : StreamDB :=
  { items := [⟨NewXID 1 5, []⟩, ⟨NewXID 2 1, []⟩],
    watermark := some (NewXID 2 1),
    cursor := some (NewXID 1 (2 ^ 64 - 1)), pending := [] }

/-- C4 counterexample state: the single stream item carries the maximal
uint64 sequence number. -/
def readWrapDB : StreamDB :=
  { items := [⟨NewXID 1 (2 ^ 64 - 1), []⟩],
    watermark := some (NewXID 1 (2 ^ 64 - 1)), cursor := none,
    pending := [] }

/-- C4 witness state: three canonical items in ascending order. -/
def readWitnessDB : StreamDB :=
  { items := [⟨NewXID 1 1, []⟩, ⟨NewXID 1 2, []⟩, ⟨NewXID 2 1, []⟩],
    watermark := some (NewXID 2 1), cursor := none, pending := [] }

/- ### Basic facts about the lexicographic order -/
theorem bytesLt_irrefl (x : XID) : bytesLt x x = false := by
  induction x with
  | nil => rfl
  | cons a as ih => simp [bytesLt, ih]

theorem bytesLt_asymm {x y : XID} (h : bytesLt x y = true) :
    bytesLt y x = false := by
  induction x generalizing y with
  | nil =>
    cases y with
    | nil => simp [bytesLt] at h
    | cons b bs => rfl
  | cons a as ih =>
    cases y with
    | nil => simp [bytesLt] at h
    | cons b bs =>
      simp only [bytesLt, Bool.or_eq_true, Bool.and_eq_true, decide_eq_true_eq,
        beq_iff_eq] at h ⊢
      rcases h with h | ⟨rfl, h⟩
      · simp [Nat.lt_asymm h, Nat.ne_of_gt h]
      · simp [ih h]

theorem bytesLt_trans {x y z : XID} (hxy : bytesLt x y = true)
    (hyz : bytesLt y z = true) : bytesLt x z = true := by
  induction x generalizing y z with
  | nil =>
    cases z with
    | nil =>
      cases y with
      | nil => simp [bytesLt] at hxy
      | cons b bs => simp [bytesLt] at hyz
    | cons c cs => rfl
  | cons a as ih =>
    cases y with
    | nil => simp [bytesLt] at hxy
    | cons b bs =>
      cases z with
      | nil => simp [bytesLt] at hyz
      | cons c cs =>
        simp only [bytesLt, Bool.or_eq_true, Bool.and_eq_true, decide_eq_true_eq,
          beq_iff_eq] at hxy hyz ⊢
        rcases hxy with h1 | ⟨rfl, h1⟩ <;> rcases hyz with h2 | ⟨rfl, h2⟩
        · exact Or.inl (Nat.lt_trans h1 h2)
        · exact Or.inl h1
        · exact Or.inl h2
        · exact Or.inr ⟨rfl, ih h1 h2⟩

theorem bytesLt_total {x y : XID} (h : x ≠ y) :
    bytesLt x y = true ∨ bytesLt y x = true := by
  induction x generalizing y with
  | nil =>
    cases y with
    | nil => exact absurd rfl h
    | cons b bs => exact Or.inl rfl
  | cons a as ih =>
    cases y with
    | nil => exact Or.inr rfl
    | cons b bs =>
      rcases Nat.lt_trichotomy a b with hab | rfl | hab
      · exact Or.inl (by simp [bytesLt, hab])
      · have hne : as ≠ bs := fun hh => h (by rw [hh])
        rcases ih hne with h1 | h1
        · exact Or.inl (by simp [bytesLt, h1])
        · exact Or.inr (by simp [bytesLt, h1])
      · exact Or.inr (by simp [bytesLt, hab])

theorem bytesLt_append {x y : List Nat} (l m : List Nat)
    (h : x.length = y.length) :
    bytesLt (x ++ l) (y ++ m) =
      (bytesLt x y || (x == y && bytesLt l m)) := by
  induction x generalizing y with
  | nil =>
    cases y with
    | nil => simp [bytesLt]
    | cons b bs => simp at h
  | cons a as ih =>
    cases y with
    | nil => simp at h
    | cons b bs =>
      simp only [List.length_cons, Nat.succ_inj] at h
      by_cases hab : a = b
      · subst hab
        simp [bytesLt, ih h]
      · have hne : (a == b) = false := beq_eq_false_iff_ne.mpr hab
        rcases Nat.lt_or_ge a b with hlt | hge
        · simp [bytesLt, hlt, hne]
        · have hgt : b < a := Nat.lt_of_le_of_ne hge (Ne.symm hab)
          simp [bytesLt, Nat.lt_asymm hgt, hne]

/- ### The decimal padding: length, digits, round-trip, order -/
theorem padDec_length (k n : Nat) : (padDec k n).length = k := by
  induction k generalizing n with
  | zero => rfl
  | succ k ih => simp [padDec, ih]

theorem padBytes_length (k n : Nat) : (padBytes k n).length = k := by
  simp [padBytes, padDec_length]

theorem padBytes_mem_ge {k n b : Nat} (hb : b ∈ padBytes k n) : 48 ≤ b := by
  simp only [padBytes, List.mem_map] at hb
  rcases hb with ⟨d, _, rfl⟩
  exact Nat.le_add_right 48 d

theorem padBytes_fold (k m : Nat) :
    (padDec k m).map (fun d => 48 + d) = padBytes k m := rfl

theorem decodeDigits_padBytes (k : Nat) :
    ∀ n acc, n < 10 ^ k → decodeDigits acc (padBytes k n) = acc * 10 ^ k + n := by
  induction k with
  | zero =>
    intro n acc hn
    have hn0 : n = 0 := by
      have h1 : (10 : Nat) ^ 0 = 1 := pow_zero 10
      omega
    subst hn0
    show decodeDigits acc ((padDec 0 0).map (fun d => 48 + d)) = acc * 10 ^ 0 + 0
    rw [show padDec 0 0 = [] from rfl]
    show acc = acc * 10 ^ 0 + 0
    simp
  | succ k ih =>
    intro n acc hn
    have hmod : n % 10 ^ k < 10 ^ k := Nat.mod_lt _ (Nat.pos_pow_of_pos k (by norm_num))
    show decodeDigits acc ((padDec (k + 1) n).map (fun d => 48 + d)) = acc * 10 ^ (k + 1) + n
    rw [show padDec (k + 1) n = n / 10 ^ k :: padDec k (n % 10 ^ k) from rfl]
    rw [List.map_cons]
    show decodeDigits (acc * 10 + (48 + n / 10 ^ k - 48)) (padBytes k (n % 10 ^ k)) =
      acc * 10 ^ (k + 1) + n
    rw [Nat.add_sub_cancel_left]
    rw [ih (n % 10 ^ k) (acc * 10 + n / 10 ^ k) hmod]
    have hdm := Nat.div_add_mod n (10 ^ k)
    calc (acc * 10 + n / 10 ^ k) * 10 ^ k + n % 10 ^ k
        = acc * (10 * 10 ^ k) + (10 ^ k * (n / 10 ^ k) + n % 10 ^ k) := by ring
      _ = acc * 10 ^ (k + 1) + n := by rw [hdm, ← pow_succ']

theorem padDec_lt (k : Nat) :
    ∀ a b, a < 10 ^ k → b < 10 ^ k →
      bytesLt (padBytes k a) (padBytes k b) = decide (a < b) := by
  induction k with
  | zero =>
    intro a b ha hb
    have h1 : (10 : Nat) ^ 0 = 1 := pow_zero 10
    have ha0 : a = 0 := by omega
    have hb0 : b = 0 := by omega
    subst ha0
    subst hb0
    rfl
  | succ k ih =>
    intro a b ha hb
    have hpk : 0 < 10 ^ k := Nat.pos_pow_of_pos k (by norm_num)
    have hamod : a % 10 ^ k < 10 ^ k := Nat.mod_lt _ hpk
    have hbmod : b % 10 ^ k < 10 ^ k := Nat.mod_lt _ hpk
    rw [show padBytes (k + 1) a = (48 + a / 10 ^ k) :: padBytes k (a % 10 ^ k) from rfl]
    rw [show padBytes (k + 1) b = (48 + b / 10 ^ k) :: padBytes k (b % 10 ^ k) from rfl]
    rw [show bytesLt ((48 + a / 10 ^ k) :: padBytes k (a % 10 ^ k))
          ((48 + b / 10 ^ k) :: padBytes k (b % 10 ^ k)) =
        (decide (48 + a / 10 ^ k < 48 + b / 10 ^ k) ||
          ((48 + a / 10 ^ k == 48 + b / 10 ^ k) &&
            bytesLt (padBytes k (a % 10 ^ k)) (padBytes k (b % 10 ^ k)))) from rfl]
    rw [ih (a % 10 ^ k) (b % 10 ^ k) hamod hbmod]
    rcases Nat.lt_trichotomy (a / 10 ^ k) (b / 10 ^ k) with hd | hd | hd
    · have hab : a < b := Nat.lt_of_div_lt_div hd
      have hd48 : 48 + a / 10 ^ k < 48 + b / 10 ^ k := Nat.add_lt_add_left hd 48
      simp [hd48, hab]
    · have h1 := Nat.div_add_mod a (10 ^ k)
      have h2 := Nat.div_add_mod b (10 ^ k)
      rw [hd] at h1
      have hiff : a < b ↔ a % 10 ^ k < b % 10 ^ k := by omega
      rw [hd]
      simp [hiff]
    · have hab : ¬ a < b := Nat.lt_asymm (Nat.lt_of_div_lt_div hd)
      have hd' : ¬ (48 + a / 10 ^ k < 48 + b / 10 ^ k) := fun hh =>
        Nat.lt_asymm hd (Nat.lt_of_add_lt_add_left hh)
      have hne : (48 + a / 10 ^ k == 48 + b / 10 ^ k) = false := by
        refine beq_eq_false_iff_ne.mpr fun hh => ?_
        have : a / 10 ^ k = b / 10 ^ k := by omega
        omega
      simp [hd', hne, hab]

theorem padBytes_inj {k a b : Nat} (ha : a < 10 ^ k) (hb : b < 10 ^ k)
    (h : padBytes k a = padBytes k b) : a = b := by
  have h1 := decodeDigits_padBytes k a 0 ha
  have h2 := decodeDigits_padBytes k b 0 hb
  rw [h] at h1
  omega

theorem padBytes_beq (k a b : Nat) (ha : a < 10 ^ k) (hb : b < 10 ^ k) :
    (padBytes k a == padBytes k b) = decide (a = b) := by
  by_cases hab : a = b
  · subst hab
    simp
  · have hne : padBytes k a ≠ padBytes k b := fun hh => hab (padBytes_inj ha hb hh)
    simp [hne, hab]

/- ### XID codec facts -/
theorem two63_lt_pow20 : 2 ^ 63 < 10 ^ 20 := by norm_num

theorem two64_lt_pow20 : 2 ^ 64 < 10 ^ 20 := by norm_num

theorem NewXID_length (t s : Nat) : (NewXID t s).length = 41 := by
  simp [NewXID, padBytes_length]

/-- The head of a cons-shaped `bytesLt` comparison with equal heads. -/
theorem bytesLt_cons_same (c : Nat) (x y : List Nat) :
    bytesLt (c :: x) (c :: y) = bytesLt x y := by
  show (decide (c < c) || (c == c && bytesLt x y)) = bytesLt x y
  simp

/-- Core comparison law: the byte-wise comparison of two encoded XIDs is
the lexicographic comparison of their (timestamp, sequence) pairs. -/
theorem NewXID_lt (t₁ s₁ t₂ s₂ : Nat)
    (ht₁ : t₁ < 10 ^ 20) (hs₁ : s₁ < 10 ^ 20)
    (ht₂ : t₂ < 10 ^ 20) (hs₂ : s₂ < 10 ^ 20) :
    bytesLt (NewXID t₁ s₁) (NewXID t₂ s₂) =
      (decide (t₁ < t₂) || (decide (t₁ = t₂) && decide (s₁ < s₂))) := by
  show bytesLt (padBytes 20 t₁ ++ 45 :: padBytes 20 s₁)
      (padBytes 20 t₂ ++ 45 :: padBytes 20 s₂) = _
  rw [bytesLt_append _ _ (by rw [padBytes_length, padBytes_length])]
  rw [bytesLt_cons_same]
  rw [padDec_lt 20 t₁ t₂ ht₁ ht₂, padDec_lt 20 s₁ s₂ hs₁ hs₂]
  rw [padBytes_beq 20 t₁ t₂ ht₁ ht₂]

theorem NewXID_lt_iff (t₁ s₁ t₂ s₂ : Nat)
    (ht₁ : t₁ < 10 ^ 20) (hs₁ : s₁ < 10 ^ 20)
    (ht₂ : t₂ < 10 ^ 20) (hs₂ : s₂ < 10 ^ 20) :
    bytesLt (NewXID t₁ s₁) (NewXID t₂ s₂) = true ↔
      (t₁ < t₂ ∨ (t₁ = t₂ ∧ s₁ < s₂)) := by
  rw [NewXID_lt t₁ s₁ t₂ s₂ ht₁ hs₁ ht₂ hs₂]
  simp

theorem NewXID_inj {t₁ s₁ t₂ s₂ : Nat}
    (ht₁ : t₁ < 10 ^ 20) (hs₁ : s₁ < 10 ^ 20)
    (ht₂ : t₂ < 10 ^ 20) (hs₂ : s₂ < 10 ^ 20)
    (h : NewXID t₁ s₁ = NewXID t₂ s₂) : t₁ = t₂ ∧ s₁ = s₂ := by
  have hlen : (padBytes 20 t₁).length = (padBytes 20 t₂).length := by
    rw [padBytes_length, padBytes_length]
  have happ := List.append_inj h hlen
  rcases happ with ⟨h1, h2⟩
  refine ⟨padBytes_inj ht₁ ht₂ h1, padBytes_inj hs₁ hs₂ ?_⟩
  exact (List.cons.inj h2).2

/-- The two split parts of an encoded XID are its two padded fields. -/
theorem sepParts_NewXID (t s : Nat) :
    sepPart0 (NewXID t s) = padBytes 20 t ∧
      sepPart1 (NewXID t s) = padBytes 20 s := by
  have hall : ∀ b ∈ padBytes 20 t, (b != 45) = true := by
    intro b hb
    have := padBytes_mem_ge hb
    simp only [bne_iff_ne, ne_eq]
    omega
  have halls : ∀ b ∈ padBytes 20 s, (b != 45) = true := by
    intro b hb
    have := padBytes_mem_ge hb
    simp only [bne_iff_ne, ne_eq]
    omega
  constructor
  · show (padBytes 20 t ++ 45 :: padBytes 20 s).takeWhile (fun b => b != 45) = _
    rw [List.takeWhile_append_of_pos hall]
    simp [List.takeWhile]
  · show (((padBytes 20 t ++ 45 :: padBytes 20 s).dropWhile
      (fun b => b != 45)).drop 1).takeWhile (fun b => b != 45) = _
    rw [List.dropWhile_append_of_pos hall]
    simp only [List.dropWhile]
    norm_num
    exact fun b hb => by
      have := padBytes_mem_ge hb
      omega

/-- Decoding recovers the timestamp: `Time` of an encoded XID. -/
theorem Time_NewXID (t s : Nat) (ht : t < 2 ^ 63) :
    XID.Time (NewXID t s) = t := by
  have hts : t < 10 ^ 20 := Nat.lt_trans ht two63_lt_pow20
  rw [XID.Time, (sepParts_NewXID t s).1, decodeDigits_padBytes 20 t 0 hts]
  omega

/-- Decoding recovers the sequence number: `Seq` of an encoded XID. -/
theorem Seq_NewXID (t s : Nat) (hs : s < 2 ^ 64) :
    XID.Seq (NewXID t s) = s := by
  have hss : s < 10 ^ 20 := Nat.lt_trans hs two64_lt_pow20
  rw [XID.Seq, (sepParts_NewXID t s).2, decodeDigits_padBytes 20 s 0 hss]
  omega

/-- `Next` of a canonical XID whose sequence is below the uint64
maximum bumps the sequence number (no wrap-around). -/
theorem Next_NewXID (t s : Nat) (ht : t < 2 ^ 63) (hs : s < 2 ^ 64 - 1) :
    XID.Next (NewXID t s) = NewXID t (s + 1) := by
  have hs' : s < 2 ^ 64 := by omega
  rw [XID.Next, Time_NewXID t s ht, Seq_NewXID t s hs',
    Nat.mod_eq_of_lt (by omega)]

/-- At the maximal uint64 sequence, `Next` wraps around to sequence 0:
the "next" XID is byte-wise smaller than the input. -/
theorem Next_NewXID_wrap (t : Nat) (ht : t < 2 ^ 63) :
    XID.Next (NewXID t (2 ^ 64 - 1)) = NewXID t 0 := by
  have hs' : 2 ^ 64 - 1 < 2 ^ 64 := by omega
  rw [XID.Next, Time_NewXID t (2 ^ 64 - 1) ht,
    Seq_NewXID t (2 ^ 64 - 1) hs']
  have hmod : (2 ^ 64 - 1 + 1) % 2 ^ 64 = 0 := by
    have h1 : 2 ^ 64 - 1 + 1 = 2 ^ 64 := by omega
    rw [h1, Nat.mod_self]
  rw [hmod]

theorem XStart_eq : XStart = NewXID 0 0 := by decide

theorem XEnd_eq : XEnd = NewXID (10 ^ 20 - 1) (10 ^ 20 - 1) := by decide

/-- Every canonical XID is at most `XEnd` in the byte order. -/
theorem canonical_le_XEnd {x : XID} (hx : Canonical x) :
    bytesLe x XEnd = true := by
  rcases hx with ⟨t, s, ht, hs, rfl⟩
  have hts : t < 10 ^ 20 := Nat.lt_trans ht two63_lt_pow20
  have hss : s < 10 ^ 20 := Nat.lt_trans hs two64_lt_pow20
  rw [bytesLe, XEnd_eq]
  rw [NewXID_lt (10 ^ 20 - 1) (10 ^ 20 - 1) t s (by omega) (by omega) hts hss]
  have h1 : ¬ (10 ^ 20 - 1 < t) := by omega
  have h2 : ¬ (10 ^ 20 - 1 = t) := by omega
  simp only [h1, h2]
  simp

/-- For a wrap-free `x` and canonical `y`, being at or past `Next x` is
the same as being strictly past `x`: the order has no element between
`x` and `Next x`. -/
theorem le_Next_iff_lt {x y : XID} (hx : NextSafe x) (hy : Canonical y) :
    bytesLe (XID.Next x) y = bytesLt x y := by
  rcases hx with ⟨t, s, ht, hs, rfl⟩
  rcases hy with ⟨t', s', ht', hs', rfl⟩
  have hts : t < 10 ^ 20 := Nat.lt_trans ht two63_lt_pow20
  have hss : s < 10 ^ 20 := by
    have := two64_lt_pow20
    omega
  have hss1 : s + 1 < 10 ^ 20 := by
    have := two64_lt_pow20
    omega
  have hts' : t' < 10 ^ 20 := Nat.lt_trans ht' two63_lt_pow20
  have hss' : s' < 10 ^ 20 := Nat.lt_trans hs' two64_lt_pow20
  rw [Next_NewXID t s ht hs, bytesLe]
  rw [NewXID_lt t' s' t (s + 1) hts' hss' hts hss1]
  rw [NewXID_lt t s t' s' hts hss hts' hss']
  rcases Nat.lt_trichotomy t t' with hd | rfl | hd
  · have h1 : ¬ (t' < t) := by omega
    have h2 : ¬ (t' = t) := by omega
    simp [h1, h2, hd]
  · rcases Nat.lt_trichotomy s s' with hd' | rfl | hd'
    · have h1 : ¬ (s' < s + 1) := by omega
      simp [h1, hd']
    · simp
    · have h1 : s' < s + 1 := by omega
      have h2 : ¬ (s < s') := by omega
      simp [h1, h2]
  · have h1 : t' < t := hd
    have h2 : ¬ (t < t') := by omega
    have h3 : ¬ (t = t') := by omega
    simp [h1, h2, h3]

/-- A wrap-free XID is strictly below its `Next`. -/
theorem lt_Next {x : XID} (hx : NextSafe x) :
    bytesLt x (XID.Next x) = true := by
  rcases hx with ⟨t, s, ht, hs, rfl⟩
  have hts : t < 10 ^ 20 := Nat.lt_trans ht two63_lt_pow20
  have hss : s < 10 ^ 20 := by
    have := two64_lt_pow20
    omega
  have hss1 : s + 1 < 10 ^ 20 := by
    have := two64_lt_pow20
    omega
  rw [Next_NewXID t s ht hs]
  rw [NewXID_lt t s t (s + 1) hts hss hts hss1]
  simp

/- ### Helper lemmas about XADD -/
theorem xaddTransact_some {db : StreamDB} {id : XID} {fields : FieldMap}
    {db' : StreamDB} (h : xaddTransact db id fields = some db') :
    db'.watermark = some id ∧
      ∃ w, db.watermark = some w ∧ bytesLt w id = true := by
  unfold xaddTransact at h
  split at h
  · rename_i w hw
    split at h
    · rename_i hlt
      cases h
      exact ⟨rfl, w, hw, hlt⟩
    · cases h
  · cases h

theorem xaddTransact_none_of_ge {db : StreamDB} {id : XID} {w : XID}
    {fields : FieldMap} (hw : db.watermark = some w)
    (hlt : bytesLt w id = false) : xaddTransact db id fields = none := by
  unfold xaddTransact
  rw [hw]
  simp [hlt]

theorem XADD_eq (db : StreamDB) (id : XID) (fields : FieldMap) :
    XADD db id fields =
      match xaddTransact db id fields with
      | some db1 => (db1, Except.ok id)
      | none =>
        match xaddTransact (xInit db) id fields with
        | some db2 => (db2, Except.ok id)
        | none => (xInit db, Except.error RErr.conditionFailed) := rfl

/-- C1: `XADD` with an explicit ID fails with a condition-failure error
whenever the stored watermark is not byte-wise below the ID; whenever it
returns success the returned ID is the input ID and the watermark record
now equals it; and on a stream whose watermark record is absent it
lazily initializes the watermark to `XStart` and then admits any ID
greater than `XStart`. -/
theorem xadd_watermark_enforcement (db : StreamDB) (id : XID)
    (fields : FieldMap) :
    (∀ w, db.watermark = some w → bytesLt w id = false →
      (XADD db id fields).2 = Except.error RErr.conditionFailed) ∧
    (∀ r, (XADD db id fields).2 = Except.ok r →
      r = id ∧ (XADD db id fields).1.watermark = some id) ∧
    (db.watermark = none → bytesLt XStart id = true →
      (XADD db id fields).2 = Except.ok id ∧
      (XADD db id fields).1.watermark = some id) := by
  refine ⟨?_, ?_, ?_⟩
  · intro w hw hlt
    have h1 : xaddTransact db id fields = none := xaddTransact_none_of_ge hw hlt
    have hinit : xInit db = db := by
      unfold xInit
      rw [hw]
    rw [XADD_eq, h1, hinit, h1]
  · intro r hr
    rw [XADD_eq] at hr
    cases h1 : xaddTransact db id fields with
    | some db1 =>
      rw [h1] at hr
      have h2 : (Except.ok id : Except RErr XID) = Except.ok r := hr
      cases h2
      refine ⟨rfl, ?_⟩
      rw [XADD_eq, h1]
      exact (xaddTransact_some h1).1
    | none =>
      rw [h1] at hr
      cases h2 : xaddTransact (xInit db) id fields with
      | some db2 =>
        rw [h2] at hr
        have h3 : (Except.ok id : Except RErr XID) = Except.ok r := hr
        cases h3
        refine ⟨rfl, ?_⟩
        rw [XADD_eq, h1, h2]
        exact (xaddTransact_some h2).1
      | none =>
        rw [h2] at hr
        have h3 : (Except.error RErr.conditionFailed : Except RErr XID) =
          Except.ok r := hr
        cases h3
  · intro hw hgt
    have h1 : xaddTransact db id fields = none := by
      unfold xaddTransact
      rw [hw]
    have hinit : xInit db = { db with watermark := some XStart } := by
      unfold xInit
      rw [hw]
    have h2 : xaddTransact { db with watermark := some XStart } id fields =
        some { db with items := insertItem db.items ⟨id, fields⟩,
                       watermark := some id } := by
      unfold xaddTransact
      simp [hgt]
    rw [XADD_eq, h1, hinit, h2]
    exact ⟨rfl, rfl⟩

theorem xadd_watermark_enforcement_witness :
    (XADD { items := [], watermark := some (NewXID 1 0), cursor := none,
            pending := [] } (NewXID 0 5) []).2 =
        Except.error RErr.conditionFailed ∧
    (XADD { items := [], watermark := none, cursor := none,
            pending := [] } (NewXID 2 1) []).2 = Except.ok (NewXID 2 1) ∧
    (XADD { items := [], watermark := none, cursor := none,
            pending := [] } (NewXID 2 1) []).1.watermark =
        some (NewXID 2 1) := by
  refine ⟨?_, ?_, ?_⟩
  · exact (xadd_watermark_enforcement _ _ _).1 (NewXID 1 0) rfl (by decide)
  · exact ((xadd_watermark_enforcement _ _ _).2.2 rfl (by decide)).1
  · exact ((xadd_watermark_enforcement _ _ _).2.2 rfl (by decide)).2

/-- C2: for XIDs built from valid (timestamp, sequence) pairs, the
byte-wise comparison of the encoded strings agrees exactly with the
lexicographic order on the pairs. -/
theorem xid_string_order_iff_pair_order (t₁ s₁ t₂ s₂ : Nat)
    (ht₁ : t₁ < 2 ^ 63) (hs₁ : s₁ < 2 ^ 64)
    (ht₂ : t₂ < 2 ^ 63) (hs₂ : s₂ < 2 ^ 64) :
    bytesLt (NewXID t₁ s₁) (NewXID t₂ s₂) = true ↔
      (t₁ < t₂ ∨ (t₁ = t₂ ∧ s₁ < s₂)) :=
  NewXID_lt_iff t₁ s₁ t₂ s₂
    (Nat.lt_trans ht₁ two63_lt_pow20) (Nat.lt_trans hs₁ two64_lt_pow20)
    (Nat.lt_trans ht₂ two63_lt_pow20) (Nat.lt_trans hs₂ two64_lt_pow20)

theorem xid_string_order_iff_pair_order_witness :
    bytesLt (NewXID 1 2) (NewXID 1 3) = true ∧
      bytesLt (NewXID 2 9) (NewXID 2 9) ≠ true :=
  ⟨(xid_string_order_iff_pair_order 1 2 1 3 (by norm_num) (by norm_num)
      (by norm_num) (by norm_num)).mpr (Or.inr ⟨rfl, by norm_num⟩),
    fun h => by
      rcases (xid_string_order_iff_pair_order 2 9 2 9 (by norm_num)
        (by norm_num) (by norm_num) (by norm_num)).mp h with h1 | ⟨_, h1⟩ <;>
        exact absurd h1 (by norm_num)⟩

/-- C5: decoding an encoded XID recovers the timestamp (via `Time`) and
the sequence number (via `Seq`), and the encoded string always has
length 41 (two 20-digit fields and the separator). -/
theorem xid_roundtrip_and_length (t s : Nat) (ht : t < 2 ^ 63)
    (hs : s < 2 ^ 64) :
    XID.Time (NewXID t s) = t ∧ XID.Seq (NewXID t s) = s ∧
      (NewXID t s).length = 41 :=
  ⟨Time_NewXID t s ht, Seq_NewXID t s hs, NewXID_length t s⟩

theorem xid_roundtrip_and_length_witness :
    XID.Time (NewXID 3 7) = 3 ∧ XID.Seq (NewXID 3 7) = 7 ∧
      (NewXID 3 7).length = 41 :=
  xid_roundtrip_and_length 3 7 (by norm_num) (by norm_num)

/- ### C7: cursor writes -/
/-- C7 counterexample: the claim says no operation that writes the
group's cursor ever replaces it with an XID that is not strictly
greater than the stored value — but `XGROUP` (via `xGroupCursorSet`,
an unconditional `HSET`) overwrites a cursor standing at `NewXID 5 5`
with the strictly smaller `NewXID 1 1`. -/
theorem xgroup_overwrites_cursor_backwards :
    (XGROUP { items := [], watermark := none, cursor := some (NewXID 5 5),
              pending := [] } (NewXID 1 1)).cursor = some (NewXID 1 1) ∧
      bytesLt (NewXID 1 1) (NewXID 5 5) = true := by
  constructor
  · rfl
  · decide

/-- C7 amended: the compare-and-swap cursor advance
(`xGroupCursorPushAction`, the only cursor write used by `XREADGROUP`)
never replaces the cursor with a value that is not strictly greater:
whenever it commits, the stored cursor existed, was strictly below the
new value, and is replaced by it.  `XGROUP` alone overwrites the cursor
unconditionally. -/
theorem cursor_push_strictly_increases (db db' : StreamDB) (id : XID)
    (h : xGroupCursorPush db id = some db') :
    ∃ c, db.cursor = some c ∧ bytesLt c id = true ∧
      db'.cursor = some id := by
  unfold xGroupCursorPush at h
  split at h
  · rename_i c hc
    split at h
    · rename_i hlt
      cases h
      exact ⟨c, hc, hlt, rfl⟩
    · cases h
  · cases h

theorem cursor_push_strictly_increases_witness :
    ∃ c, ({ items := [], watermark := none, cursor := some (NewXID 1 1),
            pending := [] } : StreamDB).cursor = some c ∧
      bytesLt c (NewXID 2 2) = true ∧
      ({ items := [], watermark := none, cursor := some (NewXID 2 2),
         pending := [] } : StreamDB).cursor = some (NewXID 2 2) :=
  cursor_push_strictly_increases _ _ (NewXID 2 2) (by decide)

/- ### C8: XACK -/
theorem pendingLookup_delete (l : List (XID × PendingEntry)) (id id' : XID) :
    pendingLookup (pendingDelete l id) id' =
      if id' = id then none else pendingLookup l id' := by
  induction l with
  | nil => simp [pendingDelete, pendingLookup]
  | cons kv rest ih =>
    obtain ⟨k, e⟩ := kv
    show pendingLookup (List.filter (fun kv => kv.1 != id) ((k, e) :: rest)) id' = _
    rw [List.filter_cons]
    by_cases hk : k = id
    · subst hk
      simp only [bne_self_eq_false, Bool.false_eq_true, if_false]
      rw [show List.filter (fun kv => kv.1 != k) rest = pendingDelete rest k from rfl]
      rw [ih]
      by_cases h' : id' = k
      · simp [h']
      · have hne : (k == id') = false := by
          simp only [beq_eq_false_iff_ne, ne_eq]
          exact fun hh => h' (hh.symm)
        simp [pendingLookup, h', hne]
    · have hkeep : ((k, e).1 != id) = true := by
        simp only [bne_iff_ne, ne_eq]
        exact hk
      rw [hkeep]
      simp only [if_true]
      rw [show List.filter (fun kv => kv.1 != id) rest = pendingDelete rest id from rfl]
      by_cases h' : k = id'
      · have hbeq : (k == id') = true := beq_iff_eq.mpr h'
        have hne : ¬ (id' = id) := fun hh => hk (h'.trans hh)
        simp [pendingLookup, hbeq, hne]
      · have hne : (k == id') = false := by
          simp only [beq_eq_false_iff_ne, ne_eq]
          exact h'
        simp only [pendingLookup, hne, Bool.false_eq_true, if_false]
        rw [ih]

/-- Entries absent from the ledger stay absent through an `XACK` run
(the loop only deletes). -/
theorem xackLoop_pending_mono (ids : List XID) :
    ∀ (db : StreamDB) (fs : List Bool) (x : XID),
      pendingLookup db.pending x = none →
      pendingLookup (xackLoop db ids fs).1.pending x = none := by
  induction ids with
  | nil => intro db fs x h; exact h
  | cons id rest ih =>
    intro db fs x h
    show pendingLookup
      (if fs.headD false then (db, ([] : List XID), some RErr.transport)
       else
        let db1 : StreamDB := { db with pending := pendingDelete db.pending id }
        let r := xackLoop db1 rest fs.tail
        match pendingLookup db.pending id with
        | some _ => (r.1, id :: r.2.1, r.2.2)
        | none => (r.1, r.2.1, r.2.2)).1.pending x = none
    by_cases hf : fs.headD false
    · simp only [hf, if_true]
      exact h
    · simp only [hf, if_false, Bool.false_eq_true]
      have hx : pendingLookup (pendingDelete db.pending id) x = none := by
        rw [pendingLookup_delete]
        by_cases hxi : x = id
        · simp [hxi]
        · simp [hxi, h]
      have := ih { db with pending := pendingDelete db.pending id } fs.tail x hx
      cases hexist : pendingLookup db.pending id with
      | some e => simpa [hexist] using this
      | none => simpa [hexist] using this

theorem xackLoop_cons (db : StreamDB) (id : XID) (rest : List XID)
    (fs : List Bool) :
    xackLoop db (id :: rest) fs =
      if fs.headD false then (db, [], some RErr.transport)
      else
        match pendingLookup db.pending id with
        | some _ =>
          ((xackLoop { db with pending := pendingDelete db.pending id }
              rest fs.tail).1,
           id :: (xackLoop { db with pending := pendingDelete db.pending id }
              rest fs.tail).2.1,
           (xackLoop { db with pending := pendingDelete db.pending id }
              rest fs.tail).2.2)
        | none =>
          xackLoop { db with pending := pendingDelete db.pending id }
            rest fs.tail := by
  show _ = _
  cases hexist : pendingLookup db.pending id <;>
    cases hf : fs.headD false <;>
    simp only [xackLoop, hexist, hf, Bool.false_eq_true, if_false, if_true]

/-- With no store faults, `XACK` returns no error and acknowledges
exactly the IDs that had a pending entry. -/
theorem xackLoop_nofault (ids : List XID) :
    ∀ db : StreamDB, ids.Nodup →
      (xackLoop db ids []).2.2 = none ∧
      (xackLoop db ids []).2.1 =
        ids.filter (fun id => (pendingLookup db.pending id).isSome) := by
  induction ids with
  | nil => intro db _; exact ⟨rfl, rfl⟩
  | cons id rest ih =>
    intro db hnd
    obtain ⟨hid, hrest⟩ := List.nodup_cons.mp hnd
    have hfil : rest.filter
        (fun id' => (pendingLookup (pendingDelete db.pending id) id').isSome) =
        rest.filter (fun id' => (pendingLookup db.pending id').isSome) := by
      refine List.filter_congr ?_
      intro x hx
      have hxne : ¬ (x = id) := fun hh => hid (hh ▸ hx)
      rw [pendingLookup_delete, if_neg hxne]
    have IH := ih { db with pending := pendingDelete db.pending id } hrest
    rw [xackLoop_cons]
    have hh : ([] : List Bool).headD false = false := rfl
    rw [hh]
    simp only [Bool.false_eq_true, if_false]
    cases hexist : pendingLookup db.pending id with
    | some e =>
      refine ⟨IH.1, ?_⟩
      show id :: (xackLoop _ rest ([] : List Bool).tail).2.1 = _
      rw [show ([] : List Bool).tail = [] from rfl]
      rw [IH.2]
      rw [List.filter_cons]
      simp only [hexist, Option.isSome_some, if_true]
      rw [hfil]
    | none =>
      refine ⟨IH.1, ?_⟩
      show (xackLoop _ rest ([] : List Bool).tail).2.1 = _
      rw [show ([] : List Bool).tail = [] from rfl]
      rw [IH.2]
      rw [List.filter_cons]
      simp only [hexist, Option.isSome_none, Bool.false_eq_true, if_false]
      rw [hfil]

/-- With the store failing exactly at step `k`, `XACK` stops with the
error and the acknowledgements accumulated over the first `k` IDs. -/
theorem xackLoop_fault (ids : List XID) :
    ∀ (db : StreamDB) (k : Nat), k < ids.length → ids.Nodup →
      (xackLoop db ids (List.replicate k false ++ [true])).2.2 =
          some RErr.transport ∧
      (xackLoop db ids (List.replicate k false ++ [true])).2.1 =
        (ids.take k).filter
          (fun id => (pendingLookup db.pending id).isSome) := by
  induction ids with
  | nil =>
    intro db k hk _
    simp at hk
  | cons id rest ih =>
    intro db k hk hnd
    obtain ⟨hid, hrest⟩ := List.nodup_cons.mp hnd
    cases k with
    | zero =>
      rw [xackLoop_cons]
      have hh : (List.replicate 0 false ++ [true]).headD false = true := rfl
      rw [hh]
      simp
    | succ k =>
      have hfil : (rest.take k).filter
          (fun id' => (pendingLookup (pendingDelete db.pending id) id').isSome) =
          (rest.take k).filter
            (fun id' => (pendingLookup db.pending id').isSome) := by
        refine List.filter_congr ?_
        intro x hx
        have hxr : x ∈ rest := List.mem_of_mem_take hx
        have hxne : ¬ (x = id) := fun hh => hid (hh ▸ hxr)
        rw [pendingLookup_delete, if_neg hxne]
      have hk' : k < rest.length := by simpa using hk
      have IH := ih { db with pending := pendingDelete db.pending id } k hk' hrest
      rw [xackLoop_cons]
      have hh : (List.replicate (k + 1) false ++ [true]).headD false = false := rfl
      have ht : (List.replicate (k + 1) false ++ [true]).tail =
        List.replicate k false ++ [true] := rfl
      rw [hh]
      simp only [Bool.false_eq_true, if_false]
      cases hexist : pendingLookup db.pending id with
      | some e =>
        rw [ht]
        refine ⟨IH.1, ?_⟩
        show id :: (xackLoop _ rest _).2.1 = _
        rw [IH.2]
        rw [List.take_succ_cons, List.filter_cons]
        simp only [hexist, Option.isSome_some, if_true]
        rw [hfil]
      | none =>
        rw [ht]
        refine ⟨IH.1, ?_⟩
        show (xackLoop _ rest _).2.1 = _
        rw [IH.2]
        rw [List.take_succ_cons, List.filter_cons]
        simp only [hexist, Option.isSome_none, Bool.false_eq_true, if_false]
        rw [hfil]

/-- Every listed ID's entry is gone from the ledger after a no-fault
`XACK` run (the delete is unconditional). -/
theorem xackLoop_deletes_all (ids : List XID) :
    ∀ (db : StreamDB), ∀ id ∈ ids,
      pendingLookup (xackLoop db ids []).1.pending id = none := by
  induction ids with
  | nil =>
    intro db id hid
    cases hid
  | cons x rest ih =>
    intro db id hid
    rw [xackLoop_cons]
    rw [show ([] : List Bool).headD false = false from rfl]
    simp only [Bool.false_eq_true, if_false]
    have hx : pendingLookup (pendingDelete db.pending x) id = none ∨ id ∈ rest := by
      rcases List.mem_cons.mp hid with rfl | hmem
      · left
        rw [pendingLookup_delete]
        simp
      · right
        exact hmem
    cases hexist : pendingLookup db.pending x with
    | some e =>
      show pendingLookup (xackLoop _ rest ([] : List Bool).tail).1.pending id = none
      rw [show ([] : List Bool).tail = [] from rfl]
      rcases hx with hx | hx
      · exact xackLoop_pending_mono rest _ [] id hx
      · exact ih _ id hx
    | none =>
      show pendingLookup (xackLoop _ rest ([] : List Bool).tail).1.pending id = none
      rw [show ([] : List Bool).tail = [] from rfl]
      rcases hx with hx | hx
      · exact xackLoop_pending_mono rest _ [] id hx
      · exact ih _ id hx

/-- C8: `XACK` deletes each listed ID's pending entry unconditionally;
an ID appears in the acknowledged list iff a pending entry for it
existed (so an ID with no entry is silently absent, with no error); and
when the store fails at step `k` the call returns immediately with the
acknowledgements accumulated over the first `k` IDs plus the error. -/
theorem xack_reports_existing_only (db : StreamDB) (ids : List XID)
    (hnd : ids.Nodup) :
    ((XACK db ids []).2.2 = none ∧
     (XACK db ids []).2.1 =
       ids.filter (fun id => (pendingLookup db.pending id).isSome) ∧
     ∀ id ∈ ids, pendingLookup (XACK db ids []).1.pending id = none) ∧
    (∀ k, k < ids.length →
      (XACK db ids (List.replicate k false ++ [true])).2.2 =
          some RErr.transport ∧
      (XACK db ids (List.replicate k false ++ [true])).2.1 =
        (ids.take k).filter
          (fun id => (pendingLookup db.pending id).isSome)) :=
  ⟨⟨(xackLoop_nofault ids db hnd).1, (xackLoop_nofault ids db hnd).2,
      xackLoop_deletes_all ids db⟩,
    fun k hk => xackLoop_fault ids db k hk hnd⟩

theorem xack_reports_existing_only_witness :
    ((XACK ackWitnessDB ackWitnessIds []).2.2 = none ∧
     (XACK ackWitnessDB ackWitnessIds []).2.1 =
       ackWitnessIds.filter
         (fun id => (pendingLookup ackWitnessDB.pending id).isSome) ∧
     ∀ id ∈ ackWitnessIds,
       pendingLookup (XACK ackWitnessDB ackWitnessIds []).1.pending id =
         none) ∧
    (∀ k, k < ackWitnessIds.length →
      (XACK ackWitnessDB ackWitnessIds
          (List.replicate k false ++ [true])).2.2 = some RErr.transport ∧
      (XACK ackWitnessDB ackWitnessIds
          (List.replicate k false ++ [true])).2.1 =
        (ackWitnessIds.take k).filter
          (fun id => (pendingLookup ackWitnessDB.pending id).isSome)) :=
  xack_reports_existing_only ackWitnessDB ackWitnessIds (by decide)

/- ### XCLAIM: C6 and C10 -/
theorem pendingLookup_put (l : List (XID × PendingEntry)) (id id' : XID)
    (e : PendingEntry) :
    pendingLookup (pendingPut l id e) id' =
      if id' = id then some e else pendingLookup l id' := by
  induction l with
  | nil =>
    show pendingLookup [(id, e)] id' = _
    by_cases h : id' = id
    · have hbeq : (id == id') = true := beq_iff_eq.mpr h.symm
      simp [pendingLookup, hbeq, h]
    · have hbeq : (id == id') = false := by
        simp only [beq_eq_false_iff_ne, ne_eq]
        exact fun hh => h hh.symm
      simp [pendingLookup, hbeq, h]
  | cons kv rest ih =>
    obtain ⟨k, e0⟩ := kv
    show pendingLookup
      (if k == id then (id, e) :: rest else (k, e0) :: pendingPut rest id e)
      id' = _
    by_cases hk : k = id
    · have hbeq : (k == id) = true := beq_iff_eq.mpr hk
      rw [hbeq]
      simp only [if_true]
      by_cases h' : id' = id
      · have hb2 : (id == id') = true := beq_iff_eq.mpr h'.symm
        simp [pendingLookup, hb2, h']
      · have hb2 : (id == id') = false := by
          simp only [beq_eq_false_iff_ne, ne_eq]
          exact fun hh => h' hh.symm
        have hb3 : (k == id') = false := by
          simp only [beq_eq_false_iff_ne, ne_eq]
          exact fun hh => h' (hk ▸ hh).symm
        simp [pendingLookup, hb2, hb3, h', hk]
    · have hbeq : (k == id) = false := by
        simp only [beq_eq_false_iff_ne, ne_eq]
        exact hk
      rw [hbeq]
      simp only [Bool.false_eq_true, if_false]
      by_cases h' : k = id'
      · have hb2 : (k == id') = true := beq_iff_eq.mpr h'
        have hne : ¬ (id' = id) := fun hh => hk (h'.trans hh)
        simp [pendingLookup, hb2, hne]
      · have hb2 : (k == id') = false := by
          simp only [beq_eq_false_iff_ne, ne_eq]
          exact h'
        simp only [pendingLookup, hb2, Bool.false_eq_true, if_false]
        rw [ih]

/-- Every item of a single-point range query has exactly that ID. -/
theorem rangeItems_point {items : List StreamItem} {id : XID} :
    ∀ it ∈ rangeItems items id id, it.ID = id := by
  intro it hit
  have h := List.of_mem_filter hit
  simp only [Bool.and_eq_true] at h
  obtain ⟨h1, h2⟩ := h
  rw [bytesLe] at h1 h2
  by_contra hne
  rcases bytesLt_total hne with hlt | hlt
  · rw [hlt] at h1
    cases h1
  · rw [hlt] at h2
    cases h2

/-- A stored item with the queried ID makes the single-point range
query non-empty. -/
theorem rangeItems_point_ne_nil {items : List StreamItem} {id : XID}
    {f : FieldMap} (h : StreamItem.mk id f ∈ items) :
    rangeItems items id id ≠ [] := by
  have hmem : StreamItem.mk id f ∈ rangeItems items id id := by
    refine List.mem_filter.mpr ⟨h, ?_⟩
    show (bytesLe id (StreamItem.mk id f).ID &&
      bytesLe (StreamItem.mk id f).ID id) = true
    show (bytesLe id id && bytesLe id id) = true
    rw [bytesLe, bytesLt_irrefl]
    rfl
  exact List.ne_nil_of_mem hmem

theorem xclaimLoop_cons (c : String) (before now : Nat) (db : StreamDB)
    (id : XID) (rest : List XID) :
    xclaimLoop c before now db (id :: rest) =
      match pendingLookup db.pending id with
      | some e =>
        if e.lastDelivered ≤ before then
          match XRANGE
              { db with pending := pendingPut db.pending id ⟨c, now, 0⟩ }
              id id 1 with
          | [] =>
            ({ db with pending := pendingPut db.pending id ⟨c, now, 0⟩ },
             [], some RErr.itemLoadFailed)
          | item :: _ =>
            ((xclaimLoop c before now
                { db with pending := pendingPut db.pending id ⟨c, now, 0⟩ }
                rest).1,
             item :: (xclaimLoop c before now
                { db with pending := pendingPut db.pending id ⟨c, now, 0⟩ }
                rest).2.1,
             (xclaimLoop c before now
                { db with pending := pendingPut db.pending id ⟨c, now, 0⟩ }
                rest).2.2)
        else xclaimLoop c before now db rest
      | none => xclaimLoop c before now db rest := by
  show _ = _
  cases hexist : pendingLookup db.pending id with
  | some e =>
    by_cases hle : e.lastDelivered ≤ before
    · cases hr : XRANGE
          { db with pending := pendingPut db.pending id ⟨c, now, 0⟩ } id id 1 with
      | nil => simp only [xclaimLoop, hexist, hle, if_true, hr]
      | cons item tl => simp only [xclaimLoop, hexist, hle, if_true, hr]
    · simp only [xclaimLoop, hexist, hle, if_false]
  | none => simp only [xclaimLoop, hexist]

/-- C6: per pending entry, `XCLAIM` with threshold `before` skips the
entry silently (state unchanged, entry excluded from the result, no
error contribution) when its last-delivered timestamp is strictly after
`before`; when the timestamp is at or before `before` the claim
commits: the entry is reassigned to the requesting consumer with
delivery count 0 and timestamp `now`, and the corresponding stream item
(fetched by ID) is prepended to the result. -/
theorem xclaim_threshold_behavior (db : StreamDB) (c : String)
    (before now : Nat) (id : XID) (rest : List XID) (e : PendingEntry)
    (he : pendingLookup db.pending id = some e) :
    (before < e.lastDelivered →
      XCLAIM db c before now (id :: rest) = XCLAIM db c before now rest) ∧
    (e.lastDelivered ≤ before → (∃ f, StreamItem.mk id f ∈ db.items) →
      ∃ item, item.ID = id ∧
        XCLAIM db c before now (id :: rest) =
          ((xclaimLoop c before now
              { db with pending := pendingPut db.pending id ⟨c, now, 0⟩ }
              rest).1,
           item :: (xclaimLoop c before now
              { db with pending := pendingPut db.pending id ⟨c, now, 0⟩ }
              rest).2.1,
           (xclaimLoop c before now
              { db with pending := pendingPut db.pending id ⟨c, now, 0⟩ }
              rest).2.2) ∧
        pendingLookup (pendingPut db.pending id ⟨c, now, 0⟩) id =
          some ⟨c, now, 0⟩) := by
  constructor
  · intro hafter
    have hle : ¬ (e.lastDelivered ≤ before) := by omega
    show xclaimLoop c before now db (id :: rest) = xclaimLoop c before now db rest
    rw [xclaimLoop_cons]
    simp only [he, hle, if_false]
  · intro hle hfex
    obtain ⟨f, hf⟩ := hfex
    have hne : rangeItems db.items id id ≠ [] := rangeItems_point_ne_nil hf
    cases hL : rangeItems db.items id id with
    | nil => exact absurd hL hne
    | cons item tl =>
      have hid : item.ID = id :=
        rangeItems_point item (by rw [hL]; exact List.mem_cons_self item tl)
      refine ⟨item, hid, ?_, ?_⟩
      · show xclaimLoop c before now db (id :: rest) = _
        rw [xclaimLoop_cons]
        simp only [he, hle, if_true]
        have hxr : XRANGE
            { db with pending := pendingPut db.pending id ⟨c, now, 0⟩ }
            id id 1 = item :: tl.take 0 := by
          show (rangeItems db.items id id).take 1 = _
          rw [hL]
          rfl
        rw [hxr]
      · rw [pendingLookup_put]
        simp

theorem xclaim_threshold_behavior_witness :
    (XCLAIM claimWitnessDB "c1" 9 20 [NewXID 1 1] =
      XCLAIM claimWitnessDB "c1" 9 20 []) ∧
    (∃ item, item.ID = NewXID 1 1 ∧
      XCLAIM claimWitnessDB "c1" 10 20 [NewXID 1 1] =
        ((xclaimLoop "c1" 10 20
            { claimWitnessDB with
              pending := pendingPut claimWitnessDB.pending (NewXID 1 1)
                ⟨"c1", 20, 0⟩ } []).1,
         item :: (xclaimLoop "c1" 10 20
            { claimWitnessDB with
              pending := pendingPut claimWitnessDB.pending (NewXID 1 1)
                ⟨"c1", 20, 0⟩ } []).2.1,
         (xclaimLoop "c1" 10 20
            { claimWitnessDB with
              pending := pendingPut claimWitnessDB.pending (NewXID 1 1)
                ⟨"c1", 20, 0⟩ } []).2.2) ∧
      pendingLookup (pendingPut claimWitnessDB.pending (NewXID 1 1)
          ⟨"c1", 20, 0⟩) (NewXID 1 1) = some ⟨"c1", 20, 0⟩) :=
  ⟨(xclaim_threshold_behavior claimWitnessDB "c1" 9 20 (NewXID 1 1) []
      ⟨"c0", 10, 3⟩ (by decide)).1 (by norm_num),
   (xclaim_threshold_behavior claimWitnessDB "c1" 10 20 (NewXID 1 1) []
      ⟨"c0", 10, 3⟩ (by decide)).2 (by norm_num)
      ⟨[("a", "1")], by exact List.mem_singleton.mpr rfl⟩⟩

/-- A single-point range query misses when no stored item has the ID. -/
theorem rangeItems_point_nil {items : List StreamItem} {id : XID}
    (h : ∀ it ∈ items, it.ID ≠ id) : rangeItems items id id = [] := by
  rw [rangeItems, List.filter_eq_nil_iff]
  intro it hit hcond
  simp only [Bool.and_eq_true] at hcond
  obtain ⟨h1, h2⟩ := hcond
  rw [bytesLe] at h1 h2
  have hid : it.ID = id := by
    by_contra hne
    rcases bytesLt_total hne with hlt | hlt
    · rw [hlt] at h1
      cases h1
    · rw [hlt] at h2
      cases h2
  exact h it hit hid

theorem xdelLoop_cons (db : StreamDB) (id : XID) (rest : List XID) :
    xdelLoop db (id :: rest) =
      if (db.items.find? (fun it => it.ID == id)).isSome then
        ((xdelLoop { db with items := db.items.filter (fun it => it.ID != id) }
            rest).1,
         id :: (xdelLoop
            { db with items := db.items.filter (fun it => it.ID != id) }
            rest).2)
      else
        xdelLoop { db with items := db.items.filter (fun it => it.ID != id) }
          rest := by
  show _ = _
  cases hf : (db.items.find? (fun it => it.ID == id)).isSome <;>
    simp only [xdelLoop, hf, Bool.false_eq_true, if_false, if_true]

/-- `XDEL` only touches the stream keyspace: the pending ledger (and
the cursor and watermark records) are never written. -/
theorem xdelLoop_pending (ids : List XID) :
    ∀ db : StreamDB, (xdelLoop db ids).1.pending = db.pending ∧
      (xdelLoop db ids).1.cursor = db.cursor := by
  induction ids with
  | nil => intro db; exact ⟨rfl, rfl⟩
  | cons id rest ih =>
    intro db
    rw [xdelLoop_cons]
    by_cases hf : (db.items.find? (fun it => it.ID == id)).isSome = true
    · simp only [hf, if_true]
      exact ih { db with items := db.items.filter (fun it => it.ID != id) }
    · simp only [hf, if_false, Bool.false_eq_true]
      exact ih { db with items := db.items.filter (fun it => it.ID != id) }

/-- C10: when `XCLAIM`'s conditional reassignment commits but the
follow-up single-item fetch finds nothing (the item having been removed
by `XDEL`/`XTRIM`, which never touch the pending ledger), the loop
aborts before the remaining IDs and returns the items accumulated so
far plus an error, while the pending entry stays reassigned to the new
consumer with delivery count 0. -/
theorem xclaim_fetch_miss_aborts (db : StreamDB) (c : String)
    (before now : Nat) (id : XID) (rest : List XID) (e : PendingEntry)
    (he : pendingLookup db.pending id = some e)
    (hstale : e.lastDelivered ≤ before)
    (hmiss : ∀ it ∈ db.items, it.ID ≠ id) :
    XCLAIM db c before now (id :: rest) =
      ({ db with pending := pendingPut db.pending id ⟨c, now, 0⟩ }, [],
        some RErr.itemLoadFailed) ∧
    pendingLookup (XCLAIM db c before now (id :: rest)).1.pending id =
      some ⟨c, now, 0⟩ ∧
    (∀ ids, (XDEL db ids).1.pending = db.pending) ∧
    (∀ n, (XTRIM db n).1.pending = db.pending) := by
  have hnil : rangeItems db.items id id = [] := rangeItems_point_nil hmiss
  have hxr : XRANGE { db with pending := pendingPut db.pending id ⟨c, now, 0⟩ }
      id id 1 = [] := by
    show (rangeItems db.items id id).take 1 = []
    rw [hnil]
    rfl
  have heq : XCLAIM db c before now (id :: rest) =
      ({ db with pending := pendingPut db.pending id ⟨c, now, 0⟩ }, [],
        some RErr.itemLoadFailed) := by
    show xclaimLoop c before now db (id :: rest) = _
    rw [xclaimLoop_cons]
    simp only [he, hstale, if_true, hxr]
  refine ⟨heq, ?_, ?_, ?_⟩
  · rw [heq]
    show pendingLookup (pendingPut db.pending id ⟨c, now, 0⟩) id = _
    rw [pendingLookup_put]
    simp
  · intro ids
    exact (xdelLoop_pending ids db).1
  · intro n
    show (xdelLoop db _).1.pending = db.pending
    exact (xdelLoop_pending _ db).1

theorem xclaim_fetch_miss_aborts_witness :
    XCLAIM fetchMissDB "c1" 6 9 [NewXID 3 3, NewXID 4 4] =
      ({ fetchMissDB with
          pending := pendingPut fetchMissDB.pending (NewXID 3 3)
            ⟨"c1", 9, 0⟩ }, [], some RErr.itemLoadFailed) ∧
    pendingLookup
        (XCLAIM fetchMissDB "c1" 6 9 [NewXID 3 3, NewXID 4 4]).1.pending
        (NewXID 3 3) = some ⟨"c1", 9, 0⟩ ∧
    (∀ ids, (XDEL fetchMissDB ids).1.pending = fetchMissDB.pending) ∧
    (∀ n, (XTRIM fetchMissDB n).1.pending = fetchMissDB.pending) :=
  xclaim_fetch_miss_aborts fetchMissDB "c1" 6 9 (NewXID 3 3) [NewXID 4 4]
    ⟨"c0", 5, 2⟩ (by decide) (by norm_num) (by decide)

/- ### XTRIM: C9 -/
/-- Every canonical XID is at least `XStart` in the byte order. -/
theorem canonical_ge_XStart {x : XID} (hx : Canonical x) :
    bytesLt x XStart = false := by
  rcases hx with ⟨t, s, ht, hs, rfl⟩
  have hts : t < 10 ^ 20 := Nat.lt_trans ht two63_lt_pow20
  have hss : s < 10 ^ 20 := Nat.lt_trans hs two64_lt_pow20
  rw [XStart_eq]
  rw [NewXID_lt t s 0 0 hts hss (by norm_num) (by norm_num)]
  simp

/-- On canonical IDs the full-range scan returns the whole keyspace. -/
theorem rangeItems_full {items : List StreamItem}
    (hcan : ∀ it ∈ items, Canonical it.ID) :
    rangeItems items XStart XEnd = items := by
  rw [rangeItems, List.filter_eq_self]
  intro it hit
  have h1 : bytesLt it.ID XStart = false := canonical_ge_XStart (hcan it hit)
  have h2 : bytesLe it.ID XEnd = true := canonical_le_XEnd (hcan it hit)
  show (bytesLe XStart it.ID && bytesLe it.ID XEnd) = true
  rw [h2, bytesLe, h1]
  rfl

/-- The net effect of the `XDEL` loop on the stream keyspace: exactly
the listed IDs are removed. -/
theorem xdelLoop_items (ids : List XID) :
    ∀ db : StreamDB, (xdelLoop db ids).1.items =
      db.items.filter (fun it => decide (it.ID ∉ ids)) := by
  induction ids with
  | nil =>
    intro db
    show db.items = _
    rw [List.filter_eq_self.mpr]
    intro it _
    simp
  | cons id rest ih =>
    intro db
    have hstep : (xdelLoop db (id :: rest)).1 =
        (xdelLoop { db with items := db.items.filter (fun it => it.ID != id) }
          rest).1 := by
      rw [xdelLoop_cons]
      by_cases hf : (db.items.find? (fun it => it.ID == id)).isSome = true
      · simp only [hf, if_true]
      · simp only [hf, if_false, Bool.false_eq_true]
    rw [hstep, ih]
    show (db.items.filter (fun it => it.ID != id)).filter
      (fun it => decide (it.ID ∉ rest)) = _
    rw [List.filter_filter]
    refine List.filter_congr ?_
    intro it _
    by_cases h1 : it.ID = id <;> by_cases h2 : it.ID ∈ rest <;>
      simp [h1, h2]

/-- Removing exactly the IDs of the first `m` items (under strict
sorting, hence distinct IDs) leaves the suffix `drop m`. -/
theorem filter_not_mem_take (items : List StreamItem) (m : Nat)
    (hsort : List.Pairwise (fun a b => bytesLt a.ID b.ID = true) items)
    (dels : List XID)
    (hdel : ∀ x : XID, x ∈ dels ↔
      x ∈ (items.take m).map (fun it => it.ID)) :
    items.filter (fun it => decide (it.ID ∉ dels)) = items.drop m := by
  have hsplit := List.take_append_drop m items
  have hpw : List.Pairwise (fun a b => bytesLt a.ID b.ID = true)
      (items.take m ++ items.drop m) := by
    rw [hsplit]
    exact hsort
  obtain ⟨hA, hB, hAB⟩ := List.pairwise_append.mp hpw
  have hfA : (items.take m).filter
      (fun it => decide (it.ID ∉ dels)) = [] := by
    rw [List.filter_eq_nil_iff]
    intro a ha hpa
    simp only [decide_eq_true_eq] at hpa
    exact hpa ((hdel a.ID).mpr (List.mem_map.mpr ⟨a, ha, rfl⟩))
  have hfB : (items.drop m).filter
      (fun it => decide (it.ID ∉ dels)) = items.drop m := by
    rw [List.filter_eq_self]
    intro b hb
    simp only [decide_eq_true_eq]
    intro hmem
    rcases List.mem_map.mp ((hdel b.ID).mp hmem) with ⟨a, ha, haid⟩
    have hlt : bytesLt a.ID b.ID = true := hAB a ha b hb
    rw [haid, bytesLt_irrefl] at hlt
    cases hlt
  conv_lhs => rw [← hsplit]
  rw [List.filter_append, hfA, hfB, List.nil_append]

/-- C9: `XTRIM(key, N)` deletes exactly the items beyond the `N` newest
and reports their number: the kept suffix is `drop (length - N)` of the
ascending keyspace and the count is `length - N` (so `N = 0` deletes
everything, and `N >= length` deletes nothing and returns 0). -/
theorem xtrim_keeps_newest (db : StreamDB) (n : Nat)
    (hsort : List.Pairwise (fun a b => bytesLt a.ID b.ID = true) db.items)
    (hcan : ∀ it ∈ db.items, Canonical it.ID) :
    (XTRIM db n).2 = db.items.length - n ∧
    (XTRIM db n).1.items = db.items.drop (db.items.length - n) := by
  have hfull : rangeItems db.items XStart XEnd = db.items := rangeItems_full hcan
  constructor
  · show (((rangeItems db.items XStart XEnd).reverse.drop n).map
      (fun it => it.ID)).length = _
    rw [hfull]
    simp
  · have hitems : (XTRIM db n).1.items =
        db.items.filter (fun it => decide (it.ID ∉
          ((rangeItems db.items XStart XEnd).reverse.drop n).map
            (fun it2 => it2.ID))) := by
      show (xdelLoop db (((rangeItems db.items XStart XEnd).reverse.drop n).map
        (fun it2 => it2.ID))).1.items = _
      rw [xdelLoop_items]
    rw [hitems]
    refine filter_not_mem_take db.items (db.items.length - n) hsort _ ?_
    intro x
    rw [hfull, List.drop_reverse]
    constructor
    · intro hx
      rcases List.mem_map.mp hx with ⟨it, hit, rfl⟩
      exact List.mem_map.mpr ⟨it, List.mem_reverse.mp hit, rfl⟩
    · intro hx
      rcases List.mem_map.mp hx with ⟨it, hit, rfl⟩
      exact List.mem_map.mpr ⟨it, List.mem_reverse.mpr hit, rfl⟩

theorem xtrim_keeps_newest_witness :
    ((XTRIM trimWitnessDB 0).2 = 3 ∧
      (XTRIM trimWitnessDB 0).1.items = []) ∧
    ((XTRIM trimWitnessDB 5).2 = 0 ∧
      (XTRIM trimWitnessDB 5).1.items = trimWitnessDB.items) := by
  have hsort : List.Pairwise (fun a b => bytesLt a.ID b.ID = true)
      trimWitnessDB.items := by decide
  have hcan : ∀ it ∈ trimWitnessDB.items, Canonical it.ID := by
    intro it hit
    have hcases : it = ⟨NewXID 1 1, []⟩ ∨ it = ⟨NewXID 1 2, []⟩ ∨
        it = ⟨NewXID 2 1, []⟩ := by
      simpa [trimWitnessDB] using hit
    rcases hcases with rfl | rfl | rfl
    · exact ⟨1, 1, by norm_num, by norm_num, rfl⟩
    · exact ⟨1, 2, by norm_num, by norm_num, rfl⟩
    · exact ⟨2, 1, by norm_num, by norm_num, rfl⟩
  have h0 := xtrim_keeps_newest trimWitnessDB 0 hsort hcan
  have h5 := xtrim_keeps_newest trimWitnessDB 5 hsort hcan
  refine ⟨⟨?_, ?_⟩, ⟨?_, ?_⟩⟩
  · rw [h0.1]; rfl
  · rw [h0.2]; rfl
  · rw [h5.1]; rfl
  · rw [h5.2]; rfl

/- ### XREADGROUP: C3 -/
theorem xrgLoop_cons (c : String) (o : XReadOption) (now : Nat)
    (r s : StreamDB) (rest : List (StreamDB × StreamDB)) :
    xrgLoop c o now ((r, s) :: rest) =
      match xrgAttempt r s c o now with
      | XrgStep.fatal e => Except.error e
      | XrgStep.empty => Except.ok none
      | XrgStep.stepped db' item => Except.ok (some (db', item))
      | XrgStep.condFail => xrgLoop c o now rest := rfl

/-- A run whose every attempt loses the compare-and-swap race exhausts
the retry budget and reports contention. -/
theorem xrgLoop_all_condFail (c : String) (o : XReadOption) (now : Nat) :
    ∀ views : List (StreamDB × StreamDB),
      (∀ v ∈ views, xrgAttempt v.1 v.2 c o now = XrgStep.condFail) →
      xrgLoop c o now views = Except.error RErr.contention := by
  intro views
  induction views with
  | nil => intro _; rfl
  | cons v rest ih =>
    intro hall
    obtain ⟨r, s⟩ := v
    rw [xrgLoop_cons]
    rw [hall (r, s) (List.mem_cons_self _ _)]
    exact ih fun w hw => hall w (List.mem_cons_of_mem _ hw)

/-- C3 (amended): `XREADGROUP` in modes `READ_NEW`/`READ_NEW_NO_ACK`
returns the `GroupNotInitialized` error when the group's cursor record
is absent; when the cursor's sequence number is below the uint64
maximum (so `Next` does not wrap) and no stream item lies strictly past
the cursor, it returns an empty result with no error; it returns the
contention error when the cursor compare-and-swap fails on all 5
attempts; and otherwise — again for a wrap-free cursor — it returns the
single next item, advances the cursor to that item's ID through the CAS
requiring strict growth, and creates a pending entry
(consumer, count 1, timestamp now) only in `READ_NEW` mode.  At a
cursor whose sequence is the uint64 maximum the claim as stated fails:
`Next` wraps below the cursor and the CAS can only fail (see the
counterexample). -/
theorem xreadgroup_new_modes_behavior (c : String) (o : XReadOption)
    (now : Nat) :
    (∀ r s rest, r.cursor = none →
      XREADGROUP ((r, s) :: rest) c o now =
        Except.error RErr.groupNotInitialized) ∧
    (∀ r s rest cur, r.cursor = some cur → NextSafe cur →
      (∀ it ∈ r.items, Canonical it.ID) →
      (∀ it ∈ r.items, bytesLt cur it.ID = false) →
      XREADGROUP ((r, s) :: rest) c o now = Except.ok none) ∧
    (∀ views : List (StreamDB × StreamDB), views.length = 5 →
      (∀ v ∈ views, xrgAttempt v.1 v.2 c o now = XrgStep.condFail) →
      XREADGROUP views c o now = Except.error RErr.contention) ∧
    (∀ db cur item tl, db.cursor = some cur →
      XRANGE db (XID.Next cur) XEnd 1 = item :: tl →
      NextSafe cur → Canonical item.ID →
      ∃ db', XREADGROUP (List.replicate 5 (db, db)) c o now =
          Except.ok (some (db', item)) ∧
        db'.cursor = some item.ID ∧
        bytesLt cur item.ID = true ∧
        (o = XReadOption.readNew → pendingLookup db.pending item.ID = none →
          pendingLookup db'.pending item.ID = some ⟨c, now, 1⟩) ∧
        (o = XReadOption.readNewNoAck → db'.pending = db.pending)) := by
  refine ⟨?_, ?_, ?_, ?_⟩
  · intro r s rest hr
    have hatt : xrgAttempt r s c o now =
        XrgStep.fatal RErr.groupNotInitialized := by
      simp only [xrgAttempt, hr]
    show xrgLoop c o now (((r, s) :: rest).take 5) = _
    rw [List.take_succ_cons, xrgLoop_cons, hatt]
  · intro r s rest cur hr hsafe hcanr hnone
    have hnil : rangeItems r.items (XID.Next cur) XEnd = [] := by
      rw [rangeItems, List.filter_eq_nil_iff]
      intro it hit hcond
      simp only [Bool.and_eq_true] at hcond
      obtain ⟨h1, h2⟩ := hcond
      rw [le_Next_iff_lt hsafe (hcanr it hit), hnone it hit] at h1
      cases h1
    have hxr : XRANGE r (XID.Next cur) XEnd 1 = [] := by
      show (rangeItems r.items (XID.Next cur) XEnd).take 1 = []
      rw [hnil]
      rfl
    have hatt : xrgAttempt r s c o now = XrgStep.empty := by
      simp only [xrgAttempt, hr, hxr]
    show xrgLoop c o now (((r, s) :: rest).take 5) = _
    rw [List.take_succ_cons, xrgLoop_cons, hatt]
  · intro views _ hall
    exact xrgLoop_all_condFail c o now (views.take 5)
      fun v hv => hall v (List.mem_of_mem_take hv)
  · intro db cur item tl hcur hxr hccur hcit
    have hle : bytesLe (XID.Next cur) item.ID = true := by
      have hmem : item ∈ rangeItems db.items (XID.Next cur) XEnd := by
        have hmem1 : item ∈ (rangeItems db.items (XID.Next cur) XEnd).take 1 := by
          rw [show (rangeItems db.items (XID.Next cur) XEnd).take 1 =
            XRANGE db (XID.Next cur) XEnd 1 from rfl, hxr]
          exact List.mem_cons_self _ _
        exact List.mem_of_mem_take hmem1
      have hcond := List.of_mem_filter hmem
      simp only [Bool.and_eq_true] at hcond
      exact hcond.1
    have hlt : bytesLt cur item.ID = true := by
      rw [← le_Next_iff_lt hccur hcit]
      exact hle
    have hpush : xGroupCursorPush db item.ID =
        some { db with cursor := some item.ID } := by
      simp [xGroupCursorPush, hcur, hlt]
    refine ⟨xrgNewState db item.ID c o now, ?_, rfl, hlt, ?_, ?_⟩
    · have hatt : xrgAttempt db db c o now =
          XrgStep.stepped (xrgNewState db item.ID c o now) item := by
        simp only [xrgAttempt, hcur, hxr, hpush, xrgNewState]
      show xrgLoop c o now ((List.replicate 5 (db, db)).take 5) = _
      rw [show (List.replicate 5 (db, db)).take 5 =
        (db, db) :: List.replicate 4 (db, db) from rfl]
      rw [xrgLoop_cons, hatt]
    · intro ho habs
      rw [ho]
      show pendingLookup (if XReadOption.readNew = XReadOption.readNew then
        upsertPending db.pending item.ID c now else db.pending) item.ID = _
      rw [if_pos rfl]
      unfold upsertPending
      rw [habs]
      rw [pendingLookup_put]
      simp
    · intro ho
      rw [ho]
      show (if XReadOption.readNewNoAck = XReadOption.readNew then
        upsertPending db.pending item.ID c now else db.pending) = db.pending
      rw [if_neg (by intro hh; cases hh)]

theorem xreadgroup_new_modes_behavior_witness :
    XREADGROUP [(rgRaceDB, rgRaceDB)] "c1" XReadOption.readNew 40 =
      Except.error RErr.groupNotInitialized ∧
    XREADGROUP [(rgDrainedDB, rgDrainedDB)] "c1" XReadOption.readNew 40 =
      Except.ok none ∧
    XREADGROUP (List.replicate 5 (rgWitnessDB, rgRaceDB)) "c1"
      XReadOption.readNew 40 = Except.error RErr.contention ∧
    (∃ db', XREADGROUP (List.replicate 5 (rgWitnessDB, rgWitnessDB)) "c1"
        XReadOption.readNew 40 =
          Except.ok (some (db', ⟨NewXID 1 1, []⟩)) ∧
      db'.cursor = some (NewXID 1 1) ∧
      bytesLt (NewXID 0 0) (NewXID 1 1) = true ∧
      (XReadOption.readNew = XReadOption.readNew →
        pendingLookup rgWitnessDB.pending (NewXID 1 1) = none →
        pendingLookup db'.pending (NewXID 1 1) = some ⟨"c1", 40, 1⟩) ∧
      (XReadOption.readNew = XReadOption.readNewNoAck →
        db'.pending = rgWitnessDB.pending)) :=
  ⟨(xreadgroup_new_modes_behavior "c1" XReadOption.readNew 40).1
      rgRaceDB rgRaceDB [] rfl,
   (xreadgroup_new_modes_behavior "c1" XReadOption.readNew 40).2.1
      rgDrainedDB rgDrainedDB [] (NewXID 1 1) rfl
      ⟨1, 1, by norm_num, by norm_num, rfl⟩
      (by
        intro it hit
        have hcase : it = ⟨NewXID 1 1, []⟩ := by
          simpa [rgDrainedDB] using hit
        subst hcase
        exact ⟨1, 1, by norm_num, by norm_num, rfl⟩)
      (by decide),
   (xreadgroup_new_modes_behavior "c1" XReadOption.readNew 40).2.2.1
      (List.replicate 5 (rgWitnessDB, rgRaceDB)) rfl (by decide),
   (xreadgroup_new_modes_behavior "c1" XReadOption.readNew 40).2.2.2
      rgWitnessDB (NewXID 0 0) ⟨NewXID 1 1, []⟩ [] rfl (by decide)
      ⟨0, 0, by norm_num, by norm_num, rfl⟩
      ⟨1, 1, by norm_num, by norm_num, rfl⟩⟩

/-- C3 counterexample: at a cursor whose sequence number is the uint64
maximum, Go's `Next` wraps to sequence 0, so `XREADGROUP` fetches an
item at or below the cursor and the compare-and-swap can only fail.
With the only item byte-wise below the cursor the claim demands an
empty result with no error, and with a strictly greater item available
it demands that item's delivery — but both runs (with no concurrent
interference: every attempt sees the same state) return the contention
error. -/
theorem xreadgroup_wrap_contention :
    XREADGROUP (List.replicate 5 (rgWrapDB, rgWrapDB)) "c1"
      XReadOption.readNew 0 = Except.error RErr.contention ∧
    bytesLt (NewXID 1 (2 ^ 64 - 1)) (NewXID 1 5) = false ∧
    XREADGROUP (List.replicate 5 (rgWrapDB2, rgWrapDB2)) "c1"
      XReadOption.readNew 0 = Except.error RErr.contention ∧
    bytesLt (NewXID 1 (2 ^ 64 - 1)) (NewXID 2 1) = true := by
  refine ⟨by decide, by decide, by decide, by decide⟩

/- ### XREAD: C4 -/
/-- In a sorted list the `getLast?` element is maximal. -/
theorem sorted_getLast?_max {L : List StreamItem}
    (hp : List.Pairwise (fun a b => bytesLt a.ID b.ID = true) L)
    {m : StreamItem} (hm : L.getLast? = some m) :
    ∀ x ∈ L, x = m ∨ bytesLt x.ID m.ID = true := by
  have hrev : L.reverse.head? = some m := by rw [List.head?_reverse, hm]
  obtain ⟨rest, hrest⟩ : ∃ rest, L.reverse = m :: rest := by
    cases hLrev : L.reverse with
    | nil =>
      rw [hLrev] at hrev
      cases hrev
    | cons y ys =>
      rw [hLrev] at hrev
      cases hrev
      exact ⟨ys, rfl⟩
  have hpr : List.Pairwise (fun a b => bytesLt b.ID a.ID = true) L.reverse := by
    rw [List.pairwise_reverse]
    exact hp
  rw [hrest] at hpr
  have hhead := (List.pairwise_cons.mp hpr).1
  intro x hx
  have hxrev : x ∈ m :: rest := by
    rw [← hrest]
    exact List.mem_reverse.mpr hx
  rcases List.mem_cons.mp hxrev with rfl | hxr
  · exact Or.inl rfl
  · exact Or.inr (hhead x hxr)

/-- For a wrap-free `from`, `XREAD` on canonical data is the
`count`-prefix of the items strictly past `from` in the ascending
keyspace. -/
theorem XREAD_filter (db : StreamDB) (f : XID) (n : Nat)
    (hcan : ∀ it ∈ db.items, Canonical it.ID) (hcf : NextSafe f) :
    XREAD db f n = (db.items.filter (fun it => bytesLt f it.ID)).take n := by
  show (rangeItems db.items (XID.Next f) XEnd).take n = _
  have hfil : rangeItems db.items (XID.Next f) XEnd =
      db.items.filter (fun it => bytesLt f it.ID) := by
    refine List.filter_congr ?_
    intro it hit
    rw [canonical_le_XEnd (hcan it hit), Bool.and_true,
      le_Next_iff_lt hcf (hcan it hit)]
  rw [hfil]

/-- C4 (amended): for a `from` whose sequence number is below the
uint64 maximum (so `Next` does not wrap), `XREAD(key, from, count)` is
`XRANGE(key, from.Next(), XEnd, count)`: it returns, in ascending
order, only items with IDs strictly past `from` — concretely the
`count`-prefix of that filtered keyspace — and resuming from the last
returned ID (itself wrap-free) concatenates into the `2*count`-prefix,
so the resumed call never re-delivers the last ID and never skips an
item admitted before the first call.  At a `from` carrying the maximal
uint64 sequence the claim as stated fails: `Next` wraps below `from`
and the same ID is re-delivered (see the counterexample). -/
theorem xread_strictly_after_and_resume (db : StreamDB) (f : XID) (n : Nat)
    (hsort : List.Pairwise (fun a b => bytesLt a.ID b.ID = true) db.items)
    (hcan : ∀ it ∈ db.items, Canonical it.ID) (hcf : NextSafe f) :
    XREAD db f n = XRANGE db (XID.Next f) XEnd n ∧
    XREAD db f n = (db.items.filter (fun it => bytesLt f it.ID)).take n ∧
    (∀ it ∈ XREAD db f n, bytesLt f it.ID = true) ∧
    List.Pairwise (fun a b => bytesLt a.ID b.ID = true) (XREAD db f n) ∧
    (∀ lastIt, (XREAD db f n).getLast? = some lastIt →
      NextSafe lastIt.ID →
      XREAD db f n ++ XREAD db lastIt.ID n =
        (db.items.filter (fun it => bytesLt f it.ID)).take (n + n)) := by
  have hPfil := XREAD_filter db f n hcan hcf
  have hPsort : List.Pairwise (fun a b => bytesLt a.ID b.ID = true)
      (db.items.filter (fun it => bytesLt f it.ID)) :=
    List.Pairwise.filter _ hsort
  refine ⟨rfl, hPfil, ?_, ?_, ?_⟩
  · intro it hit
    rw [hPfil] at hit
    have hmem : it ∈ db.items.filter (fun it2 => bytesLt f it2.ID) :=
      List.mem_of_mem_take hit
    have hmem2 := List.of_mem_filter hmem
    exact hmem2
  · rw [hPfil]
    exact List.Pairwise.take hPsort
  · intro lastIt hlast hsafeLast
    rw [hPfil] at hlast
    have hAsort : List.Pairwise (fun a b => bytesLt a.ID b.ID = true)
        ((db.items.filter (fun it => bytesLt f it.ID)).take n) :=
      List.Pairwise.take hPsort
    have hmemA : lastIt ∈ (db.items.filter (fun it => bytesLt f it.ID)).take n :=
      List.mem_of_mem_getLast? hlast
    have hmemP : lastIt ∈ db.items.filter (fun it => bytesLt f it.ID) :=
      List.mem_of_mem_take hmemA
    have hflast0 := List.of_mem_filter hmemP
    have hflast : bytesLt f lastIt.ID = true := hflast0
    have h2 := XREAD_filter db lastIt.ID n hcan hsafeLast
    have hQP : db.items.filter (fun it => bytesLt lastIt.ID it.ID) =
        (db.items.filter (fun it => bytesLt f it.ID)).filter
          (fun it => bytesLt lastIt.ID it.ID) := by
      rw [List.filter_filter]
      refine List.filter_congr ?_
      intro it _
      by_cases hq : bytesLt lastIt.ID it.ID = true
      · rw [hq, bytesLt_trans hflast hq]
        rfl
      · have hq' : bytesLt lastIt.ID it.ID = false := by
          cases hqq : bytesLt lastIt.ID it.ID
          · rfl
          · exact absurd hqq hq
        rw [hq']
        rfl
    have hsplit := List.take_append_drop n
      (db.items.filter (fun it => bytesLt f it.ID))
    have hpw : List.Pairwise (fun a b => bytesLt a.ID b.ID = true)
        ((db.items.filter (fun it => bytesLt f it.ID)).take n ++
         (db.items.filter (fun it => bytesLt f it.ID)).drop n) := by
      rw [hsplit]
      exact hPsort
    obtain ⟨hA, hB, hAB⟩ := List.pairwise_append.mp hpw
    have hmax := sorted_getLast?_max hAsort hlast
    have hfA : ((db.items.filter (fun it => bytesLt f it.ID)).take n).filter
        (fun it => bytesLt lastIt.ID it.ID) = [] := by
      rw [List.filter_eq_nil_iff]
      intro a ha hpa
      rcases hmax a ha with rfl | hlt
      · rw [bytesLt_irrefl] at hpa
        cases hpa
      · rw [bytesLt_asymm hlt] at hpa
        cases hpa
    have hfB : ((db.items.filter (fun it => bytesLt f it.ID)).drop n).filter
        (fun it => bytesLt lastIt.ID it.ID) =
        (db.items.filter (fun it => bytesLt f it.ID)).drop n := by
      rw [List.filter_eq_self]
      intro b hb
      exact hAB lastIt hmemA b hb
    have hQ : db.items.filter (fun it => bytesLt lastIt.ID it.ID) =
        (db.items.filter (fun it => bytesLt f it.ID)).drop n := by
      rw [hQP]
      conv_lhs => rw [← hsplit]
      rw [List.filter_append, hfA, hfB, List.nil_append]
    rw [hPfil, h2, hQ]
    exact (List.take_add _ n n).symm

theorem xread_strictly_after_and_resume_witness :
    XREAD readWitnessDB (NewXID 1 1) 1 =
      XRANGE readWitnessDB (XID.Next (NewXID 1 1)) XEnd 1 ∧
    (∀ it ∈ XREAD readWitnessDB (NewXID 1 1) 1,
      bytesLt (NewXID 1 1) it.ID = true) ∧
    XREAD readWitnessDB (NewXID 1 1) 1 ++
        XREAD readWitnessDB (StreamItem.mk (NewXID 1 2) []).ID 1 =
      (readWitnessDB.items.filter
        (fun it => bytesLt (NewXID 1 1) it.ID)).take (1 + 1) := by
  have hcan : ∀ it ∈ readWitnessDB.items, Canonical it.ID := by
    intro it hit
    have hcases : it = ⟨NewXID 1 1, []⟩ ∨ it = ⟨NewXID 1 2, []⟩ ∨
        it = ⟨NewXID 2 1, []⟩ := by
      simpa [readWitnessDB] using hit
    rcases hcases with rfl | rfl | rfl
    · exact ⟨1, 1, by norm_num, by norm_num, rfl⟩
    · exact ⟨1, 2, by norm_num, by norm_num, rfl⟩
    · exact ⟨2, 1, by norm_num, by norm_num, rfl⟩
  have h := xread_strictly_after_and_resume readWitnessDB (NewXID 1 1) 1
    (by decide) hcan ⟨1, 1, by norm_num, by norm_num, rfl⟩
  exact ⟨h.1, h.2.2.1, h.2.2.2.2 ⟨NewXID 1 2, []⟩ (by decide)
    ⟨1, 2, by norm_num, by norm_num, rfl⟩⟩

/-- C4 counterexample: at a `from` whose sequence number is the uint64
maximum, Go's `Next` wraps to sequence 0, so `XREAD` re-delivers the
very ID it was resumed from: the first call returns the item with the
maximal sequence, and resuming from that returned ID yields the same
item again — which is not strictly after `from`. -/
theorem xread_wrap_redelivers :
    XREAD readWrapDB XStart 1 = [⟨NewXID 1 (2 ^ 64 - 1), []⟩] ∧
    XREAD readWrapDB (NewXID 1 (2 ^ 64 - 1)) 1 =
      [⟨NewXID 1 (2 ^ 64 - 1), []⟩] ∧
    bytesLt (NewXID 1 (2 ^ 64 - 1)) (NewXID 1 (2 ^ 64 - 1)) = false := by
  refine ⟨by decide, by decide, by decide⟩
